import Mathlib

/-!
Verification of the PDA-to-CFG conversion pipeline (CS357_PDA_to_CFG.py).

The Python source is shallowly embedded: dictionaries become insertion-ordered
association lists, Python exceptions become `Option`/`none`, and the string
processing primitives used by the source (`str.split`, `str.strip`, `int(...)`,
f-strings, `%`) are reimplemented as structurally recursive (fuel-based where
needed, so that the kernel can evaluate them) functions on `List Char`.
-/

/-- Whitespace test matching the characters Python's `str.split()` / `str.strip()`
treat as whitespace in the inputs this program handles (space, tab, newline,
carriage return). -/
def isWsChar (c : Char) : Bool :=
  c == (' ') || c == ('\t') || c == ('\n') || c == ('\r')

/-- ASCII decimal digit test (Python `str.isdigit` on the ASCII range). -/
def isDigitChar (c : Char) : Bool :=
  (('0') ≤ c) && (c ≤ ('9'))

/-- Python `str.strip()` on the character list level. -/
def trimL (cs : List Char) : List Char :=
  ((cs.dropWhile isWsChar).reverse.dropWhile isWsChar).reverse

/-- Python `str.strip()`. -/
def pyStrip (s : String) : String :=
  String.mk (trimL s.data)

/-- Python `s[1:]`. -/
def strDrop1 (s : String) : String :=
  String.mk (s.data.drop 1)

/-- Accumulating parser for a nonempty all-digit character list, used to model
`int(...)` applied to a digit string. Returns `none` on any non-digit. -/
def digitsToNatAux : List Char → Nat → Option Nat
  | [], acc => some acc
  | c :: cs, acc =>
      if isDigitChar c then digitsToNatAux cs (acc * 10 + (c.toNat - 48)) else none

/-- Model of Python `int(s)` on strings: optional surrounding whitespace, an
optional sign, then a nonempty run of decimal digits. (Python additionally
allows underscore digit grouping, which never occurs in this program's data
and is not modelled.) -/
def pyInt? (s : String) : Option Int :=
  match trimL s.data with
  | [] => none
  | ('-') :: rest =>
      if rest.isEmpty then none
      else (digitsToNatAux rest 0).map (fun n => -(n : Int))
  | ('+') :: rest =>
      if rest.isEmpty then none
      else (digitsToNatAux rest 0).map (fun n => (n : Int))
  | cs => (digitsToNatAux cs 0).map (fun n => (n : Int))

/-- Digit rendering of a natural number, fuel-based so the kernel can reduce
it; `fuel ≥ 1` always produces at least one digit. -/
def natDigitsAux : Nat → Nat → List Char → List Char
  | 0, _, acc => acc
  | fuel + 1, n, acc =>
      if n < 10 then Char.ofNat (48 + n) :: acc
      else natDigitsAux fuel (n / 10) (Char.ofNat (48 + n % 10) :: acc)

/-- Python `str(n)` for a natural number. -/
def natToStr (n : Nat) : String :=
  String.mk (natDigitsAux (n + 1) n [])

/-- Python `str(i)` for an integer (f-string interpolation of state numbers). -/
def intToStr (i : Int) : String :=
  match i with
  | Int.ofNat n => natToStr n
  | Int.negSucc n => String.mk (('-') :: natDigitsAux (n + 2) (n + 1) [])

/-- Fuel-based worker for Python `s.split(sep)` with a nonempty separator:
scan left to right, cutting at each leftmost occurrence of `sep`. -/
def pySplitAux (sep : List Char) : Nat → List Char → List Char → List (List Char)
  | 0, cs, acc => [acc.reverse ++ cs]
  | _ + 1, [], acc => [acc.reverse]
  | fuel + 1, c :: cs, acc =>
      if sep.isPrefixOf (c :: cs) then
        acc.reverse :: pySplitAux sep fuel (List.drop sep.length (c :: cs)) []
      else
        pySplitAux sep fuel cs (c :: acc)

/-- Python `s.split(sep)` for a nonempty separator (keeps empty fields). -/
def pySplitOnStr (s : String) (sep : String) : List String :=
  (pySplitAux sep.data (s.data.length + 1) s.data []).map String.mk

/-- Worker for Python `s.split()` (split on whitespace runs, discarding empty
fields). -/
def pySplitWsAux : List Char → List Char → List String
  | [], [] => []
  | [], acc => [String.mk acc.reverse]
  | c :: cs, acc =>
      if isWsChar c then
        if acc.isEmpty then pySplitWsAux cs []
        else String.mk acc.reverse :: pySplitWsAux cs []
      else pySplitWsAux cs (c :: acc)

/-- Python `s.split()` with no argument. -/
def pySplitWs (s : String) : List String :=
  pySplitWsAux s.data []

/-- Python `sep.join(parts)`. -/
def pyJoin (sep : String) : List String → String
  | [] => ("")
  | [x] => x
  | x :: xs => x ++ sep ++ pyJoin sep xs

/-- Python `s.replace(old, new)` for a nonempty `old`, via the identity
`s.replace(old, new) = new.join(s.split(old))`. -/
def pyReplace (s old new : String) : String :=
  pyJoin new (pySplitOnStr s old)

/-- Python `s.startswith(pre)`. -/
def strStartsWith (s pre : String) : Bool :=
  pre.data.isPrefixOf s.data

/-- Python string comparison (`<` on code points, shortlex on the tails). -/
def strLtL : List Char → List Char → Bool
  | [], [] => false
  | [], _ :: _ => true
  | _ :: _, [] => false
  | a :: as, b :: bs => (a.toNat < b.toNat : Bool) || (a == b && strLtL as bs)

/-- `Option.bind`-based `mapM` specialised to `Option`, kept first-order so the
kernel evaluates it and the lemmas about it stay elementary. -/
def optMapM (f : α → Option β) : List α → Option (List β)
  | [] => some []
  | x :: xs => (f x).bind (fun y => (optMapM f xs).map (fun ys => y :: ys))

/-- `foldlM` specialised to `Option`; models a Python loop whose body can raise. -/
def optFoldlM (f : β → α → Option β) : β → List α → Option β
  | b, [] => some b
  | b, x :: xs => (f b x).bind (fun b2 => optFoldlM f b2 xs)

/-- The reserved empty-string token of the input format. -/
def epsilonTok : String := ("epsilon")

/-- One transition record of the PDA (`input_symbol, popped_symbol, next_state,
pushed_symbol`, each possibly the literal token `epsilon`). -/
structure Transition where
  input_symbol : String
  popped_symbol : String
  next_state : String
  pushed_symbol : String
deriving DecidableEq, Repr

/-- The PDA JSON object built by `create_pda_json`. The `transitions` Python
dict (insertion-ordered, keyed by source state) becomes an ordered association
list. `initial_state` is the state name read from the input (the source's
`None` default can only survive into a PDA whose validation fails on other
grounds and is not modelled). -/
structure PDA where
  states : List String
  input_symbols : List String
  stack_symbols : List String
  transitions : List (String × List Transition)
  initial_state : String
  final_states : List String
deriving DecidableEq, Repr

/-- One push/pop pairing produced by `find_push_to_pop`. -/
structure PushPopPair where
  stack_symbol : String
  start_push_state : String
  end_push_state : String
  start_pop_state : String
  end_pop_state : String
deriving DecidableEq, Repr

/-- The CFG JSON object built by `create_cfg_json`. The Python key
`variables` is spelled `variablesList` because `variables` is a reserved
word in Lean. -/
structure CFG where
  variablesList : List String
  alphabet : List String
  rules : List (String × String)
  start_variable : String
deriving DecidableEq, Repr

/-- All transition records in iteration order (Python iterates the transitions
dict in insertion order and each per-state list in order). -/
def allTransitionRecords (pda : PDA) : List Transition :=
  pda.transitions.flatMap (fun st => st.2)

/-! ## Structural validator (`validate_pda` and its six checks)

Each Python check raises `ValueError` on failure; since no claim inspects the
structural error messages, the checks are embedded as `Bool` (true = the check
passes without raising). Python's `set(...)` conversions only matter for
membership, which coincides with list membership. -/

/-- `validate_non_empty_components`: all required components non-empty. The
`initial_state is None` case cannot arise in the embedded record (see `PDA`). -/
def validate_non_empty_components (pda : PDA) : Bool :=
  !pda.states.isEmpty && !pda.input_symbols.isEmpty && !pda.stack_symbols.isEmpty &&
    !pda.transitions.isEmpty && !pda.final_states.isEmpty

/-- `validate_epsilon_usage`. -/
def validate_epsilon_usage (pda : PDA) : Bool :=
  !pda.states.contains epsilonTok && !pda.input_symbols.contains epsilonTok &&
    !pda.stack_symbols.contains epsilonTok && !(pda.initial_state == epsilonTok) &&
    !pda.final_states.contains epsilonTok

/-- `validate_no_overlap`: states disjoint from input and stack symbols. -/
def validate_no_overlap (pda : PDA) : Bool :=
  !pda.states.any (fun s => pda.input_symbols.contains s || pda.stack_symbols.contains s)

/-- `validate_initial_and_final_states`. -/
def validate_initial_and_final_states (pda : PDA) : Bool :=
  pda.states.contains pda.initial_state &&
    pda.final_states.all (fun s => pda.states.contains s)

/-- `validate_transition`: one transition record references declared entities. -/
def validate_transition (pda : PDA) (t : Transition) : Bool :=
  (t.input_symbol == epsilonTok || pda.input_symbols.contains t.input_symbol) &&
    (t.popped_symbol == epsilonTok || pda.stack_symbols.contains t.popped_symbol) &&
    pda.states.contains t.next_state &&
    (t.pushed_symbol == epsilonTok || pda.stack_symbols.contains t.pushed_symbol)

/-- `validate_transitions`: every source state is declared and every record valid. -/
def validate_transitions (pda : PDA) : Bool :=
  pda.transitions.all (fun st =>
    pda.states.contains st.1 && st.2.all (validate_transition pda))

/-- `validate_additional_constraints`. -/
def validate_additional_constraints (pda : PDA) : Bool :=
  !(pda.input_symbols.contains pda.initial_state ||
      pda.stack_symbols.contains pda.initial_state) &&
    pda.final_states.all (fun f =>
      !(pda.input_symbols.contains f || pda.stack_symbols.contains f)) &&
    pda.input_symbols.all (fun i => !pda.states.contains i) &&
    pda.stack_symbols.all (fun s => !pda.states.contains s)

/-- `validate_pda`: the conjunction of the six structural checks, in order. -/
def validate_pda (pda : PDA) : Bool :=
  validate_non_empty_components pda && validate_epsilon_usage pda &&
    validate_no_overlap pda && validate_initial_and_final_states pda &&
    validate_transitions pda && validate_additional_constraints pda

/-! ## Conversion-readiness checker (`validate_pda_conversion`)

These checks raise `ValueError` with specific messages that the spec's
error-handling section refers to, so they are embedded as `Option String`
(`some msg` = the raise, `none` = the check passes). -/

/-- The message raised by `validate_pda_conversion` for multiple final states. -/
def multipleFinalStatesMsg : String :=
  ("PDA incorrect: There are multiple final states. Please update the PDA input.")

/-- The message `validate_stack_operations` raises for an under-popped symbol. -/
def stackErrMsg (sym : String) : String :=
  ("Stack not emptied: Stack symbol \x27") ++ sym ++
    ("\x27 was pushed but never fully popped. The stack needs to be emptied.. Please update the PDA input.")

/-- One `stack_operations[...] += 1` update for a push: insert the symbol with
counts `(0, 0)` if absent (at the end, where Python dicts insert), then bump
its pushed count. -/
def bump_push (table : List (String × Nat × Nat)) (sym : String) :
    List (String × Nat × Nat) :=
  let table := if table.any (fun e => e.1 == sym) then table else table ++ [(sym, 0, 0)]
  table.map (fun e => if e.1 == sym then (e.1, e.2.1 + 1, e.2.2) else e)

/-- The pop counterpart of `bump_push`. -/
def bump_pop (table : List (String × Nat × Nat)) (sym : String) :
    List (String × Nat × Nat) :=
  let table := if table.any (fun e => e.1 == sym) then table else table ++ [(sym, 0, 0)]
  table.map (fun e => if e.1 == sym then (e.1, e.2.1, e.2.2 + 1) else e)

/-- The `stack_operations` dict built by `validate_stack_operations`:
per stack symbol, in first-occurrence order, the number of transitions pushing
it and the number popping it. -/
def stack_operations (pda : PDA) : List (String × Nat × Nat) :=
  (allTransitionRecords pda).foldl
    (fun tb t =>
      let tb := if t.pushed_symbol ≠ epsilonTok then bump_push tb t.pushed_symbol else tb
      if t.popped_symbol ≠ epsilonTok then bump_pop tb t.popped_symbol else tb)
    []

/-- `validate_stack_operations`: raise (at the first offending symbol in dict
order) when some symbol is pushed strictly more often than popped. -/
def validate_stack_operations (pda : PDA) : Option String :=
  ((stack_operations pda).find? (fun e => e.2.2 < e.2.1)).map (fun e => stackErrMsg e.1)

/-- The message `validate_stack_symbol_transitions` raises. -/
def stackNeutralMsg (s : String) (t : Transition) : String :=
  ("PDA transitions incorrect: Popped symbol \x27") ++ t.popped_symbol ++
    ("\x27 is the same as the pushed symbol \x27") ++ t.pushed_symbol ++
    ("\x27 in transition from state \x27") ++ s ++ ("\x27 with input \x27") ++
    t.input_symbol ++ ("\x27. Please update the PDA input.")

/-- `validate_stack_symbol_transitions`: raise at the first transition whose
popped and pushed symbols coincide (including the epsilon/epsilon case). -/
def validate_stack_symbol_transitions (pda : PDA) : Option String :=
  pda.transitions.findSome? (fun st =>
    st.2.findSome? (fun t =>
      if t.popped_symbol == t.pushed_symbol then some (stackNeutralMsg st.1 t) else none))

/-- Steps 2 and 3 of `validate_pda_conversion` (reached when the final-state
count check passes). -/
def conversion_steps_2_3 (pda : PDA) : Option String :=
  match validate_stack_operations pda with
  | some e => some e
  | none => validate_stack_symbol_transitions pda

/-- `validate_pda_conversion`: single final state, then stack balance, then no
stack-neutral transitions; `some msg` is the first raised error. -/
def validate_pda_conversion (pda : PDA) : Option String :=
  if 1 < pda.final_states.length then some multipleFinalStatesMsg
  else conversion_steps_2_3 pda

/-! ## Pairing engine (`find_push_to_pop`) -/

/-- The candidate pairs in discovery order: for every transition that pushes a
non-epsilon symbol, every transition that pops that same symbol *while pushing
epsilon* yields a candidate. -/
def push_pop_candidates (pda : PDA) : List PushPopPair :=
  pda.transitions.flatMap (fun st =>
    st.2.flatMap (fun t =>
      if t.pushed_symbol ≠ epsilonTok then
        pda.transitions.flatMap (fun pst =>
          pst.2.filterMap (fun pt =>
            if pt.popped_symbol == t.pushed_symbol && pt.pushed_symbol == epsilonTok then
              some ⟨t.pushed_symbol, st.1, t.next_state, pst.1, pt.next_state⟩
            else none))
      else []))

/-- The `seen_pairs` set discipline: keep the first occurrence of each 5-tuple. -/
def dedup_keep_first (l : List PushPopPair) : List PushPopPair :=
  l.foldl (fun acc p => if p ∈ acc then acc else acc ++ [p]) []

/-- `find_push_to_pop`: all push/pop candidate pairs, deduplicated on the full
5-tuple in first-discovery order. -/
def find_push_to_pop (pda : PDA) : List PushPopPair :=
  dedup_keep_first (push_pop_candidates pda)

/-! ## Rule generator (`generate_rules`) -/

/-- Input symbols of all transitions that push the pair's stack symbol while
moving into its push target state. -/
def push_input_symbols (pda : PDA) (pair : PushPopPair) : List String :=
  (allTransitionRecords pda).filterMap (fun t =>
    if t.next_state == pair.end_push_state && t.pushed_symbol == pair.stack_symbol then
      some t.input_symbol
    else none)

/-- Input symbols of all transitions that pop the pair's stack symbol while
moving into its pop target state. -/
def pop_input_symbols (pda : PDA) (pair : PushPopPair) : List String :=
  (allTransitionRecords pda).filterMap (fun t =>
    if t.next_state == pair.end_pop_state && t.popped_symbol == pair.stack_symbol then
      some t.input_symbol
    else none)

/-- The f-string `A_{m}{n}` naming a state-pair nonterminal. -/
def ruleName (m n : Int) : String :=
  ("A_") ++ intToStr m ++ intToStr n

/-- The four-way `if` of `generate_rules` that brackets the inner nonterminal
with the push- and pop-side input symbols. (The Python `is not None` guards
are always true for strings, so the last branch is a plain else.) -/
def adjust_output_rule (push_in out pop_in : String) : String :=
  if pop_in == epsilonTok && push_in == epsilonTok then
    ("epsilon ") ++ out ++ (" epsilon")
  else if pop_in == epsilonTok then push_in ++ (" ") ++ out ++ (" epsilon")
  else if push_in == epsilonTok then ("epsilon ") ++ out ++ (" ") ++ pop_in
  else push_in ++ (" ") ++ out ++ (" ") ++ pop_in

/-- `rules[input_rule] += " | " + output_rule` / `rules[input_rule] = output_rule`:
append an alternative to an existing left-hand side, else insert a new key at
the end. -/
def dictUpsertConcat (rules : List (String × String)) (k v : String) :
    List (String × String) :=
  if rules.any (fun p => p.1 == k) then
    rules.map (fun p => if p.1 == k then (p.1, p.2 ++ (" | ") ++ v) else p)
  else rules ++ [(k, v)]

/-- The `int(state[1:])` parses of `generate_rules` for one pair, in source
order, and the two nonterminal names they produce (left-hand side spanning the
outer states, embedded nonterminal spanning the inner states). -/
def pair_rule_data (pair : PushPopPair) : Option (String × String) :=
  (pyInt? (strDrop1 pair.start_push_state)).bind (fun spn =>
    (pyInt? (strDrop1 pair.end_pop_state)).bind (fun epn =>
      (pyInt? (strDrop1 pair.end_push_state)).bind (fun pun =>
        (pyInt? (strDrop1 pair.start_pop_state)).map (fun pon =>
          (ruleName spn epn, ruleName pun pon)))))

/-- `generate_rules`: for each pair, for each push-side input symbol, for each
pop-side input symbol, parse the four state numbers and append the production
to the rules dict. A failing `int(...)` parse aborts the whole call (`none`). -/
def generate_rules (pda : PDA) (pairs : List PushPopPair) :
    Option (List (String × String)) :=
  optFoldlM
    (fun rules pair =>
      optFoldlM
        (fun rules push_in =>
          optFoldlM
            (fun rules pop_in =>
              (pair_rule_data pair).map (fun kv =>
                dictUpsertConcat rules kv.1 (adjust_output_rule push_in kv.2 pop_in)))
            rules (pop_input_symbols pda pair))
        rules (push_input_symbols pda pair))
    [] pairs

/-! ## Grammar finisher (`prune_useless_rules`, schematic rules, `finish_grammar`) -/

/-- The acceptance test `prune_useless_rules` applies to one alternative
right-hand side `part`, relative to the pre-pruned left-hand sides `allNT`.
Faithful to the source's control flow: `split_part = part.strip().split()`,
`part_non_terminal = split_part[1]` (an `AttributeError` on `None` when the
part has fewer than two tokens), then `number =
int(part_non_terminal.strip().split("_")[1])` (an `IndexError` or
`ValueError` when the token has no underscore or a non-numeric tail) is
computed *before* any membership test, and the part is kept when the token is
a current left-hand side, equals the part's first token, or has
`number % 11 == 0`. -/
def acceptPart (allNT : List String) (part : String) : Option Bool :=
  match pySplitWs part with
  | tok0 :: nt :: _ =>
      ((pySplitOnStr (pyStrip nt) ("_"))[1]?).bind (fun numStr =>
        (pyInt? numStr).map (fun number =>
          allNT.contains nt || nt == tok0 || number % 11 == 0))
  | _ => none

/-- Processing of one rules entry by `prune_useless_rules`: split the value on
`" | "`, test every part (a raised exception anywhere aborts), and keep the
accepted parts. -/
def pruneEntry (allNT : List String) (kv : String × String) :
    Option (String × List String) :=
  (optMapM (acceptPart allNT) (pySplitOnStr kv.2 (" | "))).map (fun flags =>
    (kv.1, ((pySplitOnStr kv.2 (" | ")).zip flags).filterMap (fun pf =>
      if pf.2 then some pf.1 else none)))

/-- `prune_useless_rules`: keep, for every left-hand side, the accepted
alternatives (joined back with `" | "`), and drop the left-hand side entirely
when none survive. -/
def prune_useless_rules (rules : List (String × String)) :
    Option (List (String × String)) :=
  (optMapM (pruneEntry (rules.map Prod.fst)) rules).map (fun processed =>
    processed.filterMap (fun e =>
      if e.2.isEmpty then none else some (e.1, pyJoin (" | ") e.2)))

/-- `find_largest_transition_number`: the maximum over every transition of the
parsed source- and target-state numbers (`int(state[1:])`), starting from 0;
a state key with an empty transition list is never parsed. -/
def find_largest_transition_number (pda : PDA) : Option Int :=
  optFoldlM
    (fun m st =>
      optFoldlM
        (fun m t =>
          (pyInt? (strDrop1 st.1)).bind (fun s =>
            (pyInt? (strDrop1 t.next_state)).map (fun n => max (max m s) n)))
        m st.2)
    0 pda.transitions

/-- Python dict assignment `rules[k] = v`: overwrite in place if the key
exists, else insert at the end. -/
def dictAssign (rules : List (String × String)) (k v : String) :
    List (String × String) :=
  if rules.any (fun p => p.1 == k) then
    rules.map (fun p => if p.1 == k then (p.1, v) else p)
  else rules ++ [(k, v)]

/-- The value of the schematic identity entry added by `add_epsilon_rules`. -/
def epsilonRuleValue (n : Int) : String :=
  ("epsilon\n\tfor 1 <= i <= ") ++ intToStr n

/-- `add_epsilon_rules`: `rules["A_ii"] = "epsilon\n\tfor 1 <= i <= N"`. -/
def add_epsilon_rules (rules : List (String × String)) (n : Int) :
    List (String × String) :=
  dictAssign rules ("A_ii") (epsilonRuleValue n)

/-- The value of the schematic closure entry added by
`add_final_transition_rule`. -/
def finalRuleValue (n : Int) : String :=
  ("A_ij A_jk\n\tfor 1 <= i <= ") ++ intToStr n ++ (", 1 <= j <= ") ++
    intToStr n ++ (", 1 <= k <= ") ++ intToStr n

/-- `add_final_transition_rule`: `rules["A_ik"] = "A_ij A_jk\n\tfor ..."`. -/
def add_final_transition_rule (rules : List (String × String)) (n : Int) :
    List (String × String) :=
  dictAssign rules ("A_ik") (finalRuleValue n)

/-- `finish_grammar`: prune first, then find the largest state number, then
append the schematic identity and closure entries. -/
def finish_grammar (pda : PDA) (rules : List (String × String)) :
    Option (List (String × String)) :=
  (prune_useless_rules rules).bind (fun rules =>
    (find_largest_transition_number pda).map (fun largest =>
      add_final_transition_rule (add_epsilon_rules rules largest) largest))

/-! ## CFG assembly (`process_grammar_and_create_cfg`) -/

/-- Insertion into the `variables` set, keeping first-occurrence order. -/
def insertUnique (l : List String) (x : String) : List String :=
  if l.contains x then l else l ++ [x]

/-- The variable-collection loop of `process_grammar_and_create_cfg`: every
left-hand side, plus every token of every alternative (newlines removed) that
starts with `A_`. -/
def collectVariables (rules : List (String × String)) : List String :=
  rules.foldl
    (fun acc kv =>
      let acc := insertUnique acc kv.1
      (pySplitOnStr (pyReplace kv.2 ("\n") ("")) (" | ")).foldl
        (fun acc part =>
          (pySplitWs part).foldl
            (fun acc tok => if strStartsWith tok ("A_") then insertUnique acc tok else acc)
            acc)
        acc)
    []

/-- The sort key of `variable_order`, encoded so that lexicographic comparison
of the triples matches Python's comparison of its `(0, int)` / `(1, str)` /
`(2, str)` keys: numbered `A_`-variables first in numeric order, other
underscored variables next in suffix order, anything else last.
`var.split("_")` with more or fewer than two fields raises (unpacking error),
hence `none`. -/
def variable_order (var : String) : Option (Nat × Nat × String) :=
  if var.data.contains ('_') then
    match pySplitOnStr var ("_") with
    | [_, suffix] =>
        if suffix.data ≠ [] && suffix.data.all isDigitChar then
          (digitsToNatAux suffix.data 0).map (fun n => (0, n, ("")))
        else some (1, 0, suffix)
    | _ => none
  else some (2, 0, var)

/-- Strict comparison of sort keys (lexicographic on the triple, Python string
order on the third component). -/
def keyLt (a b : Nat × Nat × String) : Bool :=
  a.1 < b.1 || (a.1 == b.1 &&
    (a.2.1 < b.2.1 || (a.2.1 == b.2.1 && strLtL a.2.2.data b.2.2.data)))

/-- Stable insertion into a keyed list sorted by `keyLt` (a new element goes
after all elements not strictly greater than it, as Python's stable sort
does). -/
def sortedInsert (x : (Nat × Nat × String) × String) :
    List ((Nat × Nat × String) × String) → List ((Nat × Nat × String) × String)
  | [] => [x]
  | y :: ys => if keyLt x.1 y.1 then x :: y :: ys else y :: sortedInsert x ys

/-- Stable sort by `variable_order` keys (model of Python `sorted`). -/
def sortByKeys (l : List ((Nat × Nat × String) × String)) :
    List ((Nat × Nat × String) × String) :=
  l.foldl (fun acc x => sortedInsert x acc) []

/-- `process_grammar_and_create_cfg`: collect and sort the variables, carry
the input alphabet through, and take the first rule key as start variable
(`next(iter(rules.keys()))`, which raises on an empty dict). -/
def process_grammar_and_create_cfg (rules : List (String × String)) (pda : PDA) :
    Option CFG :=
  (optMapM (fun v => (variable_order v).map (fun k => (k, v))) (collectVariables rules)).bind
    (fun keyed =>
      let variablesList := (sortByKeys keyed).map Prod.snd
      (rules.head?).map (fun kv =>
        { variablesList := variablesList
          alphabet := pda.input_symbols
          rules := rules
          start_variable := kv.1 }))

/-! ## The pipeline as executed at module level -/

/-- The grammar-producing stages run after validation: pairing, rule
generation, grammar finishing. `none` models an uncaught exception. -/
def grammar_pipeline (pda : PDA) : Option (List (String × String)) :=
  (generate_rules pda (find_push_to_pop pda)).bind (fun rules =>
    finish_grammar pda rules)

/-- The whole module-level script after loading: structural validation,
conversion validation, then the grammar pipeline and CFG assembly; any raised
error aborts with no CFG. -/
def run_conversion (pda : PDA) : Option CFG :=
  if validate_pda pda then
    match validate_pda_conversion pda with
    | some _ => none
    | none => (grammar_pipeline pda).bind (fun rules =>
        process_grammar_and_create_cfg rules pda)
  else none

/-! ## Spec-side definitions (for refinement comparisons)

These definitions follow the specification's words, not the source, and are
only compared against the source-derived functions above. -/

/-- Modelled from the spec: the name of the identity-rule instance `A[i,i]`
for a state index `i`, rendered the way the program renders state-pair
nonterminals. -/
def identityName (i : Nat) : String :=
  ("A_") ++ natToStr i ++ natToStr i

/-- Modelled from the spec: a nonterminal is an identity-rule instance when it
is `A[i,i]` for some index `i`. -/
def isIdentityNT (s : String) : Prop :=
  ∃ i : Nat, s = identityName i

/-- The nonterminals referenced by one right-hand-side value, extracted the
way `process_grammar_and_create_cfg` tokenises values: newlines removed,
alternatives split on `" | "`, whitespace-separated tokens starting with
`A_`. -/
def rhsNonterminals (v : String) : List String :=
  ((pySplitOnStr (pyReplace v ("\n") ("")) (" | ")).flatMap pySplitWs).filter
    (fun tok => strStartsWith tok ("A_"))

/-- Modelled from the spec: "every nonterminal referenced on a right-hand side
is either a left-hand side present in `rules` or an identity-rule instance
`A[i,i]`". -/
def specRhsInvariant (rules : List (String × String)) : Prop :=
  ∀ kv ∈ rules, ∀ nt ∈ rhsNonterminals kv.2,
    (∃ e ∈ rules, e.1 = nt) ∨ isIdentityNT nt

/-- Modelled from the spec: "the nonterminal corresponding to the span from
the initial state to the single final state", rendered the way the program
renders state-pair nonterminals. -/
def specStartVariable (pda : PDA) : Option String :=
  match pda.final_states with
  | [f] =>
      (pyInt? (strDrop1 pda.initial_state)).bind (fun i =>
        (pyInt? (strDrop1 f)).map (fun j => ruleName i j))
  | _ => none

/-- Modelled from the spec: the schematic identity entry covers the instance
`A[i,i] -> epsilon` when the entry is present and `1 <= i <= N`. -/
def identityRuleCovered (rules : List (String × String)) (i : Nat) : Prop :=
  ∃ n : Int, (("A_ii"), epsilonRuleValue n) ∈ rules ∧ 1 ≤ (i : Int) ∧ (i : Int) ≤ n

/-- Number of transitions whose pushed symbol is `sym`. -/
def pushCount (pda : PDA) (sym : String) : Nat :=
  ((allTransitionRecords pda).filter (fun t => t.pushed_symbol == sym)).length

/-- Number of transitions whose popped symbol is `sym`. -/
def popCount (pda : PDA) (sym : String) : Nat :=
  ((allTransitionRecords pda).filter (fun t => t.popped_symbol == sym)).length

/-! ## Concrete instances used by the claims -/

/-- The end-to-end example PDA of the spec: `q0 -a,epsilon,q1,Z` and
`q1 -b,Z,q2,epsilon`, accepting `{ab}`. -/
def pdaAB : PDA :=
  { states := [("q0"), ("q1"), ("q2")]
    input_symbols := [("a"), ("b")]
    stack_symbols := [("Z")]
    transitions :=
      [(("q0"), [⟨("a"), ("epsilon"), ("q1"), ("Z")⟩]),
       (("q1"), [⟨("b"), ("Z"), ("q2"), ("epsilon")⟩])]
    initial_state := ("q0")
    final_states := [("q2")] }

/-- The single pairing the example PDA produces. -/
def pairZ : PushPopPair :=
  ⟨("Z"), ("q0"), ("q1"), ("q1"), ("q2")⟩

/-- `pdaAB` with final state `q1` instead of `q2`: still passes both
validators, but its grammar pipeline is unchanged, so the start variable no
longer spans initial-to-final. -/
def pdaABfinalQ1 : PDA :=
  { pdaAB with final_states := [("q1")] }

/-- A PDA whose only pop of `Z` simultaneously pushes `W`: the transition
`q1 -b,Z,q2,W` is a pop transition of `Z` in the spec's sense, but
`find_push_to_pop` ignores it because its pushed symbol is not epsilon. -/
def pdaPopPush : PDA :=
  { states := [("q0"), ("q1"), ("q2")]
    input_symbols := [("a"), ("b")]
    stack_symbols := [("Z"), ("W")]
    transitions :=
      [(("q0"), [⟨("a"), ("epsilon"), ("q1"), ("Z")⟩]),
       (("q1"), [⟨("b"), ("Z"), ("q2"), ("W")⟩])]
    initial_state := ("q0")
    final_states := [("q2")] }

/-- A valid PDA (two balanced push/pop pairs) whose generated rules are
`A_01 -> a A_12 b` and `A_12 -> a A_98 b`; pruning keeps the first entry but
drops the second, leaving a dangling reference to `A_12` in the finished
grammar. -/
def pdaChain : PDA :=
  { states := [("q0"), ("q1"), ("q2"), ("q8"), ("q9")]
    input_symbols := [("a"), ("b")]
    stack_symbols := [("X"), ("Y")]
    transitions :=
      [(("q0"), [⟨("a"), ("epsilon"), ("q1"), ("X")⟩]),
       (("q2"), [⟨("b"), ("X"), ("q1"), ("epsilon")⟩]),
       (("q1"), [⟨("a"), ("epsilon"), ("q9"), ("Y")⟩]),
       (("q8"), [⟨("b"), ("Y"), ("q2"), ("epsilon")⟩])]
    initial_state := ("q0")
    final_states := [("q9")] }

/-- A structurally valid PDA whose only transition pops `Z` without any
transition ever pushing it (pop count exceeds push count). -/
def pdaPopOnly : PDA :=
  { states := [("q0"), ("q1")]
    input_symbols := [("a")]
    stack_symbols := [("Z")]
    transitions := [(("q0"), [⟨("a"), ("Z"), ("q1"), ("epsilon")⟩])]
    initial_state := ("q0")
    final_states := [("q1")] }

/-- A PDA that passes both validators but uses the state name `start`, whose
tail `tart` is not a decimal integer. -/
def pdaNamedStart : PDA :=
  { states := [("start"), ("q1")]
    input_symbols := [("a"), ("b")]
    stack_symbols := [("Z")]
    transitions :=
      [(("start"), [⟨("a"), ("epsilon"), ("q1"), ("Z")⟩]),
       (("q1"), [⟨("b"), ("Z"), ("start"), ("epsilon")⟩])]
    initial_state := ("start")
    final_states := [("q1")] }

/-- A structurally valid PDA with two distinct final states. -/
def pdaTwoFinal : PDA :=
  { states := [("q0"), ("q1"), ("q2")]
    input_symbols := [("a"), ("b")]
    stack_symbols := [("Z")]
    transitions :=
      [(("q0"), [⟨("a"), ("epsilon"), ("q1"), ("Z")⟩]),
       (("q1"), [⟨("b"), ("Z"), ("q2"), ("epsilon")⟩])]
    initial_state := ("q0")
    final_states := [("q1"), ("q2")] }

/-- The rule mapping generated by `pdaChain`, used directly as a pruning
input. -/
def rulesChain : List (String × String) :=
  [(("A_01"), ("a A_12 b")), (("A_12"), ("a A_98 b"))]

/-- A rule mapping on which pruning is stable (its only reference is to its
own left-hand side). -/
def rulesSelf : List (String × String) :=
  [(("A_00"), ("a A_00 b"))]

/-- A rule set whose only alternative references `A_187`: not a left-hand
side and not an identity instance, yet `int("187") % 11 == 0`. -/
def rulesMod11Keep : List (String × String) :=
  [(("A_00"), ("a A_187 b"))]

/-- A rule set whose only alternative references `A_1010`, the identity
instance `A[10,10]`, for which `int("1010") % 11 != 0`. -/
def rulesMod11Drop : List (String × String) :=
  [(("A_00"), ("a A_1010 b"))]

/-! ## Derived characterisations used in theorem statements -/

/-- The productions contributed by one pair, in emission order: one for every
push-side input symbol crossed with every pop-side input symbol, failing
exactly when `generate_rules` would raise while processing the pair. -/
def pair_productions (pda : PDA) (pair : PushPopPair) :
    Option (List (String × String)) :=
  (optMapM
      (fun push_in =>
        optMapM
          (fun pop_in =>
            (pair_rule_data pair).map (fun kv =>
              (kv.1, adjust_output_rule push_in kv.2 pop_in)))
          (pop_input_symbols pda pair))
      (push_input_symbols pda pair)).map List.flatten

/-- All productions of `generate_rules` in emission order. -/
def all_productions (pda : PDA) (pairs : List PushPopPair) :
    Option (List (String × String)) :=
  (optMapM (pair_productions pda) pairs).map List.flatten

/-- Dict lookup (first entry with the given key). -/
def lookupVal (rules : List (String × String)) (k : String) : Option String :=
  (rules.find? (fun p => p.1 == k)).map Prod.snd

/-- The right-hand sides emitted for one left-hand side, in emission order. -/
def valsFor (ps : List (String × String)) (k : String) : List String :=
  (ps.filter (fun p => p.1 == k)).map Prod.snd

/-- Left fold of `" | "`-concatenation, the exact shape `generate_rules`
builds a value in. -/
def joinAcc (v0 : String) (vs : List String) : String :=
  vs.foldl (fun acc v => acc ++ (" | ") ++ v) v0

/-- The count pair recorded for a symbol in a `stack_operations` table
(`(0, 0)` when absent). -/
def tableCount (tb : List (String × Nat × Nat)) (sym : String) : Nat × Nat :=
  ((tb.find? (fun e => e.1 == sym)).map (fun e => e.2)).getD (0, 0)

/-- Combination of an already-stored value with later-emitted alternatives:
the value a dict entry holds after a sequence of `dictUpsertConcat` steps. -/
def combineAlts (o : Option String) (vs : List String) : Option String :=
  match o with
  | some v0 => some (joinAcc v0 vs)
  | none =>
      match vs with
      | [] => none
      | x :: xs => some (joinAcc x xs)

/-- Number of records in a transition list pushing `sym`. -/
def countPushL (l : List Transition) (sym : String) : Nat :=
  (l.filter (fun t => t.pushed_symbol == sym)).length

/-- Number of records in a transition list popping `sym`. -/
def countPopL (l : List Transition) (sym : String) : Nat :=
  (l.filter (fun t => t.popped_symbol == sym)).length

/-- The finished grammar of the end-to-end example PDA. -/
def finishedAB : List (String × String) :=
  [(("A_02"), ("a A_11 b")), (("A_ii"), epsilonRuleValue 2),
   (("A_ik"), finalRuleValue 2)]

/-- The finished grammar of `pdaChain`. -/
def finishedChain : List (String × String) :=
  [(("A_01"), ("a A_12 b")), (("A_ii"), epsilonRuleValue 9),
   (("A_ik"), finalRuleValue 9)]

/-! ## Helper lemmas -/

/-- String append acts as list append on the underlying character data. -/
theorem str_data_append (a b : String) : (a ++ b).data = a.data ++ b.data := by
  cases a
  cases b
  rfl

/-- The accumulator form in which `generate_rules` concatenates alternatives
coincides with `" | ".join`. -/
theorem joinAcc_eq_pyJoin (xs : List String) :
    ∀ x, joinAcc x xs = pyJoin (" | ") (x :: xs) := by
  induction xs with
  | nil => intro x; rfl
  | cons v vs ih =>
      intro x
      have h1 : joinAcc x (v :: vs) = joinAcc (x ++ (" | ") ++ v) vs := rfl
      rw [h1, ih]
      cases vs with
      | nil => simp [pyJoin, String.append_assoc]
      | cons w ws => simp [pyJoin, String.append_assoc]

/-- Membership in the `seen_pairs`-style dedup fold. -/
theorem mem_dedup_fold (l : List PushPopPair) :
    ∀ (acc : List PushPopPair) (p : PushPopPair),
      p ∈ l.foldl (fun acc q => if q ∈ acc then acc else acc ++ [q]) acc ↔
        p ∈ acc ∨ p ∈ l := by
  induction l with
  | nil => intro acc p; simp
  | cons x xs ih =>
      intro acc p
      by_cases hx : x ∈ acc
      · simp only [List.foldl_cons, if_pos hx, ih]
        constructor
        · rintro (h | h)
          · exact Or.inl h
          · exact Or.inr (List.mem_cons_of_mem x h)
        · rintro (h | h)
          · exact Or.inl h
          · rcases List.mem_cons.mp h with rfl | h
            · exact Or.inl hx
            · exact Or.inr h
      · simp only [List.foldl_cons, if_neg hx, ih, List.mem_append,
          List.mem_singleton, List.mem_cons]
        tauto

/-- The dedup fold produces a duplicate-free list. -/
theorem nodup_dedup_fold (l : List PushPopPair) :
    ∀ (acc : List PushPopPair), acc.Nodup →
      (l.foldl (fun acc q => if q ∈ acc then acc else acc ++ [q]) acc).Nodup := by
  induction l with
  | nil => intro acc h; simpa using h
  | cons x xs ih =>
      intro acc h
      by_cases hx : x ∈ acc
      · simpa [List.foldl_cons, if_pos hx] using ih acc h
      · refine ih _ ?_
        simp [List.nodup_append, h, hx]

/-- Unfolding lemma for `optMapM`. -/
theorem optMapM_cons (f : α → Option β) (x : α) (xs : List α) :
    optMapM f (x :: xs) =
      (f x).bind (fun y => (optMapM f xs).map (fun ys => y :: ys)) := rfl

/-- A successful `optMapM` run succeeds on every element, and the results are
members of the output. -/
theorem optMapM_mem (f : α → Option β) :
    ∀ (l : List α) (out : List β), optMapM f l = some out →
      ∀ x ∈ l, ∃ y, f x = some y ∧ y ∈ out := by
  intro l
  induction l with
  | nil => intro out _ x hx; cases hx
  | cons a as ih =>
      intro out h x hx
      rw [optMapM_cons] at h
      cases hfa : f a with
      | none => rw [hfa] at h; cases h
      | some y =>
          rw [hfa] at h
          cases hrest : optMapM f as with
          | none => rw [hrest] at h; cases h
          | some ys =>
              rw [hrest] at h
              have h3 : some (y :: ys) = some out := h
              injection h3 with h4
              rcases List.mem_cons.mp hx with rfl | hx2
              · exact ⟨y, hfa, by rw [← h4]; exact List.mem_cons_self _ _⟩
              · rcases ih ys hrest x hx2 with ⟨z, hz, hzmem⟩
                exact ⟨z, hz, by rw [← h4]; exact List.mem_cons_of_mem _ hzmem⟩

/-- A successful `optMapM` run relates input and output pointwise. -/
theorem optMapM_forall2 (f : α → Option β) :
    ∀ (l : List α) (out : List β), optMapM f l = some out →
      List.Forall₂ (fun a b => f a = some b) l out := by
  intro l
  induction l with
  | nil =>
      intro out h
      cases h
      exact List.Forall₂.nil
  | cons a as ih =>
      intro out h
      rw [optMapM_cons] at h
      cases hfa : f a with
      | none => rw [hfa] at h; cases h
      | some y =>
          rw [hfa] at h
          cases hrest : optMapM f as with
          | none => rw [hrest] at h; cases h
          | some ys =>
              rw [hrest] at h
              have h3 : some (y :: ys) = some out := h
              injection h3 with h4
              rw [← h4]
              exact List.Forall₂.cons hfa (ih ys hrest)

/-- `find?` commutes with a map that preserves the predicate. -/
theorem find?_map_of_pred {α : Type} (p : α → Bool) (upd : α → α)
    (h : ∀ e, p (upd e) = p e) :
    ∀ l : List α, List.find? p (l.map upd) = (List.find? p l).map upd := by
  intro l
  induction l with
  | nil => rfl
  | cons x xs ih =>
      by_cases hpx : p x
      · rw [List.map_cons, List.find?_cons_of_pos _ (by rw [h]; exact hpx),
          List.find?_cons_of_pos _ hpx]
        rfl
      · rw [List.map_cons,
          List.find?_cons_of_neg _ (by rw [h]; exact hpx),
          List.find?_cons_of_neg _ hpx, ih]

/-- `find?` over an append whose first part fails. -/
theorem find?_append_of_none {α : Type} (p : α → Bool) :
    ∀ (l1 l2 : List α), List.find? p l1 = none →
      List.find? p (l1 ++ l2) = List.find? p l2 := by
  intro l1
  induction l1 with
  | nil => intro l2 _; rfl
  | cons x xs ih =>
      intro l2 h
      by_cases hpx : p x
      · rw [List.find?_cons_of_pos _ hpx] at h; cases h
      · have hpx2 : p x = false := Bool.not_eq_true _ |>.mp hpx
        rw [List.find?_cons_of_neg _ hpx] at h
        rw [List.cons_append, List.find?_cons_of_neg _ hpx, ih l2 h]

/-- `find?` over an append whose first part succeeds. -/
theorem find?_append_of_some {α : Type} (p : α → Bool) :
    ∀ (l1 l2 : List α) (e : α), List.find? p l1 = some e →
      List.find? p (l1 ++ l2) = some e := by
  intro l1
  induction l1 with
  | nil => intro l2 e h; cases h
  | cons x xs ih =>
      intro l2 e h
      by_cases hpx : p x
      · rw [List.find?_cons_of_pos _ hpx] at h
        rw [List.cons_append, List.find?_cons_of_pos _ hpx, h]
      · rw [List.find?_cons_of_neg _ hpx] at h
        rw [List.cons_append, List.find?_cons_of_neg _ hpx, ih l2 e h]

/-- Looking up the updated key after a `dictUpsertConcat`. -/
theorem lookupVal_upsert_self (r : List (String × String)) (k v : String) :
    lookupVal (dictUpsertConcat r k v) k =
      some (match lookupVal r k with
            | some v0 => v0 ++ (" | ") ++ v
            | none => v) := by
  unfold dictUpsertConcat lookupVal
  by_cases hany : r.any (fun p => p.1 == k)
  · rw [if_pos hany]
    rw [find?_map_of_pred (fun p => p.1 == k)
      (fun p => if p.1 == k then (p.1, p.2 ++ (" | ") ++ v) else p)
      (by intro e; by_cases he : e.1 == k <;> simp [he])]
    cases hf : List.find? (fun p => p.1 == k) r with
    | none =>
        exfalso
        rw [List.find?_eq_none] at hf
        rcases List.any_eq_true.mp hany with ⟨e, he, hpe⟩
        exact hf e he hpe
    | some e =>
        have hek : e.1 = k := by
          have h2 := List.find?_some hf
          simpa using h2
        simp [hek]
  · rw [if_neg hany]
    have hf : List.find? (fun p => p.1 == k) r = none := by
      rw [List.find?_eq_none]
      intro x hx hpx
      exact hany (List.any_eq_true.mpr ⟨x, hx, hpx⟩)
    rw [find?_append_of_none _ _ _ hf, hf]
    simp [List.find?]

/-- Looking up a different key after a `dictUpsertConcat`. -/
theorem lookupVal_upsert_other (r : List (String × String)) (k v k2 : String)
    (hne : k2 ≠ k) :
    lookupVal (dictUpsertConcat r k v) k2 = lookupVal r k2 := by
  unfold dictUpsertConcat lookupVal
  by_cases hany : r.any (fun p => p.1 == k)
  · rw [if_pos hany]
    rw [find?_map_of_pred (fun p => p.1 == k2)
      (fun p => if p.1 == k then (p.1, p.2 ++ (" | ") ++ v) else p)
      (by intro e; by_cases he : e.1 == k <;> simp [he])]
    cases hf : List.find? (fun p => p.1 == k2) r with
    | none => rfl
    | some e =>
        have hek2 : e.1 = k2 := by
          have h2 := List.find?_some hf
          simpa using h2
        have heknot : (e.1 == k) = false := by
          simp [hek2]
          exact hne
        have hne2 : ¬ (e.1 = k) := by rw [hek2]; exact hne
        simp [heknot, hne2]
  · rw [if_neg hany]
    cases hf : List.find? (fun p => p.1 == k2) r with
    | none =>
        rw [find?_append_of_none _ _ _ hf]
        have : ((k, v).1 == k2) = false := by
          simp
          exact fun h => hne h.symm
        simp [List.find?, this]
    | some e => rw [find?_append_of_some _ _ _ _ hf]

/-- `combineAlts` with no further alternatives. -/
theorem combineAlts_nil (o : Option String) : combineAlts o [] = o := by
  cases o <;> rfl

/-- The value stored for a key by the `dictUpsertConcat` fold is the
`" | "`-accumulated concatenation of all alternatives emitted for that key. -/
theorem lookupVal_fold_upsert (k : String) :
    ∀ (ps : List (String × String)) (r : List (String × String)),
      lookupVal (ps.foldl (fun rr q => dictUpsertConcat rr q.1 q.2) r) k =
        combineAlts (lookupVal r k) (valsFor ps k) := by
  intro ps
  induction ps with
  | nil => intro r; simp [valsFor, combineAlts_nil]
  | cons q qs ih =>
      intro r
      rw [List.foldl_cons, ih]
      by_cases hqk : q.1 == k
      · have hq1 : q.1 = k := by simpa using hqk
        have hv : valsFor (q :: qs) k = q.2 :: valsFor qs k := by
          simp [valsFor, hqk]
        rw [hv, hq1, lookupVal_upsert_self]
        cases hlr : lookupVal r k with
        | none => simp [combineAlts]
        | some v0 => simp [combineAlts, joinAcc]
      · have hq1 : k ≠ q.1 := fun h => hqk (by simp [h])
        have hv : valsFor (q :: qs) k = valsFor qs k := by
          simp [valsFor, hqk]
        rw [hv, lookupVal_upsert_other _ _ _ _ hq1]

/-- `optFoldlM` only depends on the pointwise behaviour of its step. -/
theorem optFoldlM_congr {α β : Type} (f g : β → α → Option β)
    (h : ∀ b a, f b a = g b a) :
    ∀ (l : List α) (b : β), optFoldlM f b l = optFoldlM g b l := by
  intro l
  induction l with
  | nil => intro b; rfl
  | cons x xs ih =>
      intro b
      simp only [optFoldlM, h]
      cases g b x with
      | none => rfl
      | some b2 => simp only [Option.bind]; exact ih b2

/-- A loop that upserts one optional production per element equals collecting
the productions first and folding the upserts afterwards. -/
theorem optFoldlM_map_upsert {α : Type} (g : α → Option (String × String)) :
    ∀ (l : List α) (r : List (String × String)),
      optFoldlM (fun rules x => (g x).map (fun q => dictUpsertConcat rules q.1 q.2)) r l
      = (optMapM g l).map
          (fun ps => ps.foldl (fun rr q => dictUpsertConcat rr q.1 q.2) r) := by
  intro l
  induction l with
  | nil => intro r; rfl
  | cons x xs ih =>
      intro r
      cases hg : g x with
      | none => simp [optFoldlM, optMapM, hg]
      | some q =>
          cases hm : optMapM g xs with
          | none => simp [optFoldlM, optMapM, hg, hm, ih]
          | some ys => simp [optFoldlM, optMapM, hg, hm, ih]

/-- A loop that folds one optional production batch per element equals
collecting all batches, flattening, and folding afterwards. -/
theorem optFoldlM_flatten {α : Type} (h : α → Option (List (String × String))) :
    ∀ (l : List α) (r : List (String × String)),
      optFoldlM
        (fun rules x =>
          (h x).map (fun ps => ps.foldl (fun rr q => dictUpsertConcat rr q.1 q.2) rules))
        r l
      = (optMapM h l).map
          (fun pss => pss.flatten.foldl (fun rr q => dictUpsertConcat rr q.1 q.2) r) := by
  intro l
  induction l with
  | nil => intro r; rfl
  | cons x xs ih =>
      intro r
      cases hh : h x with
      | none => simp [optFoldlM, optMapM, hh]
      | some ps =>
          cases hm : optMapM h xs with
          | none => simp [optFoldlM, optMapM, hh, hm, ih]
          | some pss => simp [optFoldlM, optMapM, hh, hm, ih, List.foldl_append]

/-- `generate_rules` collects every pair's cross-product productions in
emission order and upserts them left to right into an initially empty dict. -/
theorem generate_rules_eq (pda : PDA) (pairs : List PushPopPair) :
    generate_rules pda pairs =
      (all_productions pda pairs).map
        (fun ps => ps.foldl (fun rr q => dictUpsertConcat rr q.1 q.2) []) := by
  have hinner : ∀ (pair : PushPopPair) (push_in : String) (r : List (String × String)),
      optFoldlM
        (fun rules pop_in =>
          (pair_rule_data pair).map (fun kv =>
            dictUpsertConcat rules kv.1 (adjust_output_rule push_in kv.2 pop_in)))
        r (pop_input_symbols pda pair)
      = (optMapM
          (fun pop_in =>
            (pair_rule_data pair).map (fun kv =>
              (kv.1, adjust_output_rule push_in kv.2 pop_in)))
          (pop_input_symbols pda pair)).map
          (fun ps => ps.foldl (fun rr q => dictUpsertConcat rr q.1 q.2) r) := by
    intro pair push_in r
    rw [optFoldlM_congr _
      (fun rules pop_in =>
        ((pair_rule_data pair).map (fun kv =>
          (kv.1, adjust_output_rule push_in kv.2 pop_in))).map
          (fun q => dictUpsertConcat rules q.1 q.2))
      (by intro b a; cases pair_rule_data pair <;> rfl)]
    exact optFoldlM_map_upsert _ _ r
  have hmid : ∀ (pair : PushPopPair) (r : List (String × String)),
      optFoldlM
        (fun rules push_in =>
          optFoldlM
            (fun rules pop_in =>
              (pair_rule_data pair).map (fun kv =>
                dictUpsertConcat rules kv.1 (adjust_output_rule push_in kv.2 pop_in)))
            rules (pop_input_symbols pda pair))
        r (push_input_symbols pda pair)
      = (pair_productions pda pair).map
          (fun ps => ps.foldl (fun rr q => dictUpsertConcat rr q.1 q.2) r) := by
    intro pair r
    rw [optFoldlM_congr _
      (fun rules push_in =>
        (optMapM
          (fun pop_in =>
            (pair_rule_data pair).map (fun kv =>
              (kv.1, adjust_output_rule push_in kv.2 pop_in)))
          (pop_input_symbols pda pair)).map
          (fun ps => ps.foldl (fun rr q => dictUpsertConcat rr q.1 q.2) rules))
      (by intro b a; exact hinner pair a b)]
    rw [optFoldlM_flatten]
    unfold pair_productions
    rw [Option.map_map]
    rfl
  unfold generate_rules
  rw [optFoldlM_congr _
    (fun rules pair =>
      (pair_productions pda pair).map
        (fun ps => ps.foldl (fun rr q => dictUpsertConcat rr q.1 q.2) rules))
    (by intro b a; exact hmid a b)]
  rw [optFoldlM_flatten]
  unfold all_productions
  rw [Option.map_map]
  rfl

/-- C3: for every PDA and every pair, `generate_rules` collects the push-side
and pop-side input symbols and emits, for every combination of one push-side
and one pop-side symbol, the production `A[p0,q1] -> pushSymbol A[p1,q0]
popSymbol` (epsilon standing in for a side that consumes no input, as encoded
in `adjust_output_rule`); the alternative is recorded under the left-hand
side `A[p0,q1]`, whose stored value is the `" | "`-join of *all* alternatives
emitted for it in emission order, so earlier alternatives are never
overwritten. -/
theorem generate_rules_cross_product (pda : PDA) (pairs : List PushPopPair)
    (rules : List (String × String)) (pair : PushPopPair) (a b : String)
    (hgen : generate_rules pda pairs = some rules)
    (hpair : pair ∈ pairs)
    (ha : a ∈ push_input_symbols pda pair)
    (hb : b ∈ pop_input_symbols pda pair) :
    ∃ prods kv,
      all_productions pda pairs = some prods ∧
      pair_rule_data pair = some kv ∧
      (kv.1, adjust_output_rule a kv.2 b) ∈ prods ∧
      adjust_output_rule a kv.2 b ∈ valsFor prods kv.1 ∧
      lookupVal rules kv.1 = some (pyJoin (" | ") (valsFor prods kv.1)) := by
  rw [generate_rules_eq] at hgen
  cases hall : all_productions pda pairs with
  | none => rw [hall] at hgen; cases hgen
  | some prods =>
      rw [hall] at hgen
      have hrules : rules = prods.foldl (fun rr q => dictUpsertConcat rr q.1 q.2) [] := by
        have h2 : some (prods.foldl (fun rr q => dictUpsertConcat rr q.1 q.2) []) =
            some rules := hgen
        injection h2 with h3
        exact h3.symm
      unfold all_productions at hall
      cases hmm : optMapM (pair_productions pda) pairs with
      | none => rw [hmm] at hall; cases hall
      | some pss =>
          rw [hmm] at hall
          have hprods : prods = pss.flatten := by
            have h2 : some pss.flatten = some prods := hall
            injection h2 with h3
            exact h3.symm
          rcases optMapM_mem _ pairs pss hmm pair hpair with ⟨ps, hps, hpsmem⟩
          unfold pair_productions at hps
          cases hmm2 : optMapM
              (fun push_in =>
                optMapM
                  (fun pop_in =>
                    (pair_rule_data pair).map (fun kv =>
                      (kv.1, adjust_output_rule push_in kv.2 pop_in)))
                  (pop_input_symbols pda pair))
              (push_input_symbols pda pair) with
          | none => rw [hmm2] at hps; cases hps
          | some pls =>
              rw [hmm2] at hps
              have hps2 : ps = pls.flatten := by
                have h2 : some pls.flatten = some ps := hps
                injection h2 with h3
                exact h3.symm
              rcases optMapM_mem _ _ pls hmm2 a ha with ⟨la, hla, hlamem⟩
              rcases optMapM_mem _ _ la hla b hb with ⟨y, hy, hymem⟩
              cases hkv : pair_rule_data pair with
              | none => rw [hkv] at hy; cases hy
              | some kv =>
                  rw [hkv] at hy
                  have hy2 : y = (kv.1, adjust_output_rule a kv.2 b) := by
                    have h2 : some (kv.1, adjust_output_rule a kv.2 b) = some y := hy
                    injection h2 with h3
                    exact h3.symm
                  have hymem2 : (kv.1, adjust_output_rule a kv.2 b) ∈ prods := by
                    rw [hprods]
                    rw [List.mem_flatten]
                    refine ⟨ps, hpsmem, ?_⟩
                    rw [hps2, List.mem_flatten]
                    exact ⟨la, hlamem, hy2 ▸ hymem⟩
                  have hvals : adjust_output_rule a kv.2 b ∈ valsFor prods kv.1 := by
                    unfold valsFor
                    refine List.mem_map.mpr ⟨(kv.1, adjust_output_rule a kv.2 b), ?_, rfl⟩
                    refine List.mem_filter.mpr ⟨hymem2, ?_⟩
                    simp
                  refine ⟨prods, kv, rfl, rfl, hymem2, hvals, ?_⟩
                  rw [hrules, lookupVal_fold_upsert]
                  cases hvf : valsFor prods kv.1 with
                  | nil => rw [hvf] at hvals; cases hvals
                  | cons x xs =>
                      show combineAlts (lookupVal [] kv.1) (x :: xs) =
                        some (pyJoin (" | ") (x :: xs))
                      rw [show lookupVal [] kv.1 = none from rfl]
                      show some (joinAcc x xs) = some (pyJoin (" | ") (x :: xs))
                      rw [joinAcc_eq_pyJoin]

/-- Witness for C3 at the end-to-end example: the pair `(Z,q0,q1,q1,q2)` with
push symbol `a` and pop symbol `b` yields the alternative `a A_11 b` stored
under `A_02`. -/
theorem generate_rules_cross_product_witness :
    ∃ prods kv,
      all_productions pdaAB [pairZ] = some prods ∧
      pair_rule_data pairZ = some kv ∧
      (kv.1, adjust_output_rule ("a") kv.2 ("b")) ∈ prods ∧
      adjust_output_rule ("a") kv.2 ("b") ∈ valsFor prods kv.1 ∧
      lookupVal [(("A_02"), ("a A_11 b"))] kv.1 =
        some (pyJoin (" | ") (valsFor prods kv.1)) :=
  generate_rules_cross_product pdaAB [pairZ] [(("A_02"), ("a A_11 b"))] pairZ
    ("a") ("b") (by decide) (by decide) (by decide) (by decide)

/-- Membership in an `if`-guarded list that is empty in the negative branch. -/
theorem mem_ite_nil {α : Type} (c : Prop) [Decidable c] (l : List α) (a : α) :
    a ∈ (if c then l else []) ↔ c ∧ a ∈ l := by
  by_cases h : c
  · simp [h]
  · simp [h]

/-- An `if`-guarded `some` equals `some y` exactly when the guard holds and
the payloads agree. -/
theorem ite_some_none_iff {α : Type} (c : Prop) [Decidable c] (x y : α) :
    (if c then some x else none) = some y ↔ c ∧ x = y := by
  by_cases h : c
  · simp [h]
  · simp [h]

/-- C2 (amended): `find_push_to_pop` emits exactly the pairs built from a
push transition and a transition that pops the same symbol *while pushing
epsilon* (the extra pushed-epsilon filter is absent from the claim), as a
duplicate-free list. -/
theorem find_push_to_pop_characterization (pda : PDA) :
    (∀ p : PushPopPair,
      p ∈ find_push_to_pop pda ↔
        ∃ st ∈ pda.transitions, ∃ t ∈ st.2,
          t.pushed_symbol ≠ epsilonTok ∧
          ∃ pst ∈ pda.transitions, ∃ pt ∈ pst.2,
            pt.popped_symbol = t.pushed_symbol ∧ pt.pushed_symbol = epsilonTok ∧
            p = ⟨t.pushed_symbol, st.1, t.next_state, pst.1, pt.next_state⟩) ∧
    (find_push_to_pop pda).Nodup := by
  constructor
  · intro p
    unfold find_push_to_pop dedup_keep_first
    rw [mem_dedup_fold]
    simp only [List.not_mem_nil, false_or]
    unfold push_pop_candidates
    constructor
    · intro h
      rcases List.mem_flatMap.mp h with ⟨st, hst, h2⟩
      rcases List.mem_flatMap.mp h2 with ⟨t, ht, h3⟩
      rw [mem_ite_nil] at h3
      rcases h3 with ⟨hpush, h4⟩
      rcases List.mem_flatMap.mp h4 with ⟨pst, hpst, h5⟩
      rcases List.mem_filterMap.mp h5 with ⟨pt, hpt, h6⟩
      rw [ite_some_none_iff] at h6
      rcases h6 with ⟨hcond, hpair⟩
      rw [Bool.and_eq_true] at hcond
      refine ⟨st, hst, t, ht, hpush, pst, hpst, pt, hpt, ?_, ?_, hpair.symm⟩
      · simpa using hcond.1
      · simpa using hcond.2
    · rintro ⟨st, hst, t, ht, hpush, pst, hpst, pt, hpt, hpop, hpeps, rfl⟩
      refine List.mem_flatMap.mpr ⟨st, hst, ?_⟩
      refine List.mem_flatMap.mpr ⟨t, ht, ?_⟩
      rw [mem_ite_nil]
      refine ⟨hpush, ?_⟩
      refine List.mem_flatMap.mpr ⟨pst, hpst, ?_⟩
      refine List.mem_filterMap.mpr ⟨pt, hpt, ?_⟩
      rw [ite_some_none_iff]
      refine ⟨?_, rfl⟩
      simp [hpop, hpeps]
  · exact nodup_dedup_fold _ [] List.nodup_nil

/-- Witness for C2 (amended) at the end-to-end example PDA: the pairing
`(Z,q0,q1,q1,q2)` is emitted. -/
theorem find_push_to_pop_characterization_witness :
    pairZ ∈ find_push_to_pop pdaAB :=
  ((find_push_to_pop_characterization pdaAB).1 pairZ).mpr
    ⟨(("q0"), [⟨("a"), ("epsilon"), ("q1"), ("Z")⟩]), by decide,
      ⟨("a"), ("epsilon"), ("q1"), ("Z")⟩, by decide, by decide,
      (("q1"), [⟨("b"), ("Z"), ("q2"), ("epsilon")⟩]), by decide,
      ⟨("b"), ("Z"), ("q2"), ("epsilon")⟩, by decide, by decide, by decide, rfl⟩

/-- Counterexample for C2 as stated: in `pdaPopPush` the transition
`q1 -b,Z,q2,W` pops `Z` (its popped symbol is `Z`), so the claimed
push/pop cross-product would contain `(Z,q0,q1,q1,q2)`, but
`find_push_to_pop` emits nothing because that pop simultaneously pushes
`W` (not epsilon). -/
theorem find_push_to_pop_counterexample :
    ((("q0"), [⟨("a"), ("epsilon"), ("q1"), ("Z")⟩]) ∈ pdaPopPush.transitions) ∧
    ((("q1"), [⟨("b"), ("Z"), ("q2"), ("W")⟩]) ∈ pdaPopPush.transitions) ∧
    (⟨("Z"), ("q0"), ("q1"), ("q1"), ("q2")⟩ : PushPopPair) ∉
      find_push_to_pop pdaPopPush ∧
    find_push_to_pop pdaPopPush = [] := by
  refine ⟨by decide, by decide, by decide, rfl⟩

/-- The character data of an identity-rule nonterminal name. -/
theorem identityName_data (i : Nat) :
    (identityName i).data =
      [('A'), ('_')] ++ ((natToStr i).data ++ (natToStr i).data) := by
  unfold identityName
  rw [str_data_append, str_data_append, List.append_assoc]

/-- `A_12` is not an identity-rule instance (no index repeats to `12`). -/
theorem not_identityNT_A12 : ¬ isIdentityNT ("A_12") := by
  rintro ⟨i, hi⟩
  have hd := congrArg String.data hi
  rw [identityName_data] at hd
  have hlit : ("A_12").data = [('A'), ('_'), ('1'), ('2')] := rfl
  rw [hlit] at hd
  have hd2 : [('1'), ('2')] = (natToStr i).data ++ (natToStr i).data := by
    simpa using hd
  have hlen2 : ((natToStr i).data).length + ((natToStr i).data).length = 2 := by
    have h3 := congrArg List.length hd2
    rw [List.length_append] at h3
    exact h3.symm
  have h1 : (natToStr i).data.length = 1 := by omega
  rcases List.length_eq_one.mp h1 with ⟨c, hc⟩
  rw [hc] at hd2
  have hpair : ('1') = c ∧ ('2') = c := by simpa using hd2
  rcases hpair with ⟨h1c, h2c⟩
  rw [← h2c] at h1c
  exact absurd h1c (by decide)

/-- `A_187` is not an identity-rule instance (its digit tail has odd length). -/
theorem not_identityNT_A187 : ¬ isIdentityNT ("A_187") := by
  rintro ⟨i, hi⟩
  have hd := congrArg String.data hi
  rw [identityName_data] at hd
  have hlit : ("A_187").data = [('A'), ('_'), ('1'), ('8'), ('7')] := rfl
  rw [hlit] at hd
  have hd2 : [('1'), ('8'), ('7')] = (natToStr i).data ++ (natToStr i).data := by
    simpa using hd
  have hlen2 : ((natToStr i).data).length + ((natToStr i).data).length = 3 := by
    have h3 := congrArg List.length hd2
    rw [List.length_append] at h3
    exact h3.symm
  omega

/-- C1: on the spec's end-to-end example the pipeline yields exactly one
pairing `(Z,q0,q1,q1,q2)`, exactly one generated production
`A_02 -> a A_11 b`, a finished grammar containing the schematic identity
family whose range covers `A_11 -> epsilon`, and a start variable `A_02`,
which is the state-pair nonterminal from `q0` to `q2`. -/
theorem end_to_end_example :
    find_push_to_pop pdaAB = [pairZ] ∧
    generate_rules pdaAB [pairZ] = some [(("A_02"), ("a A_11 b"))] ∧
    grammar_pipeline pdaAB = some finishedAB ∧
    identityRuleCovered finishedAB 1 ∧
    specStartVariable pdaAB = some ("A_02") ∧
    (run_conversion pdaAB).map (fun c => c.start_variable) = some ("A_02") := by
  refine ⟨rfl, rfl, rfl, ⟨2, by decide, by decide, by decide⟩, rfl, rfl⟩

/-- C4: the pruning acceptance test is `int(tail) % 11 == 0`, not `i = j`:
it keeps the alternative `a A_187 b` although `A_187` is neither a current
left-hand side nor an identity instance, and it removes the alternative
`a A_1010 b` although `A_1010` is the identity instance `A[10,10]`
(contradicting the source's own comment "both numbers in A_xx are the
same"). -/
theorem prune_mod11_shortcut :
    prune_useless_rules rulesMod11Keep = some rulesMod11Keep ∧
    ¬ isIdentityNT ("A_187") ∧
    (∀ kv ∈ rulesMod11Keep, kv.1 ≠ ("A_187")) ∧
    prune_useless_rules rulesMod11Drop = some [] ∧
    isIdentityNT ("A_1010") :=
  ⟨rfl, not_identityNT_A187, by decide, rfl, ⟨10, rfl⟩⟩

/-- Counterexample for C7: pruning `rulesChain` keeps `A_01 -> a A_12 b`
(because `A_12` is still a left-hand side before pruning) but drops `A_12`
itself; a second pruning pass then also drops `A_01`, so the output of one
pass is not a fixed point. -/
theorem prune_not_idempotent :
    prune_useless_rules rulesChain = some [(("A_01"), ("a A_12 b"))] ∧
    prune_useless_rules [(("A_01"), ("a A_12 b"))] = some [] ∧
    (some [(("A_01"), ("a A_12 b"))] : Option (List (String × String))) ≠
      some [] :=
  ⟨rfl, rfl, by decide⟩

/-- Every element of the right list of a `Forall₂` has a related element on
the left. -/
theorem forall2_mem_right {α β : Type} {R : α → β → Prop} :
    ∀ {l : List α} {out : List β}, List.Forall₂ R l out →
      ∀ b ∈ out, ∃ a ∈ l, R a b := by
  intro l out h
  induction h with
  | nil => intro b hb; cases hb
  | cons hR hrest ih =>
      intro b hb
      rcases List.mem_cons.mp hb with rfl | hb2
      · exact ⟨_, List.mem_cons_self _ _, hR⟩
      · rcases ih b hb2 with ⟨a, ha, hA⟩
        exact ⟨a, List.mem_cons_of_mem _ ha, hA⟩

/-- A `Forall₂` relation holds at every position of the zip of its two lists. -/
theorem forall2_zip {α β : Type} {R : α → β → Prop} :
    ∀ {l : List α} {fl : List β}, List.Forall₂ R l fl →
      ∀ p ∈ l.zip fl, R p.1 p.2 := by
  intro l fl h
  induction h with
  | nil => intro p hp; cases hp
  | cons hR hrest ih =>
      intro p hp
      rw [List.zip_cons_cons] at hp
      rcases List.mem_cons.mp hp with rfl | hp2
      · exact hR
      · exact ih p hp2

/-- Keeping the flagged elements of a zip yields a sublist of the originals. -/
theorem zip_filterMap_sublist {α : Type} :
    ∀ (l : List α) (fl : List Bool),
      ((l.zip fl).filterMap (fun pf => if pf.2 then some pf.1 else none)).Sublist l := by
  intro l
  induction l with
  | nil => intro fl; simp
  | cons x xs ih =>
      intro fl
      cases fl with
      | nil => simp
      | cons b bs =>
          rw [List.zip_cons_cons, List.filterMap_cons]
          cases b
          · simpa using (ih bs).cons x
          · simpa using (ih bs).cons₂ x

/-- What a successful `pruneEntry` run guarantees: the key is unchanged and
the kept parts are a sublist of the split alternatives, each passing the
acceptance test. -/
theorem pruneEntry_spec (allNT : List String) (kv : String × String)
    (e : String × List String) (h : pruneEntry allNT kv = some e) :
    e.1 = kv.1 ∧ e.2.Sublist (pySplitOnStr kv.2 (" | ")) ∧
      ∀ p ∈ e.2, acceptPart allNT p = some true := by
  unfold pruneEntry at h
  cases hm : optMapM (acceptPart allNT) (pySplitOnStr kv.2 (" | ")) with
  | none => rw [hm] at h; cases h
  | some flags =>
      rw [hm] at h
      have h3 : some ((kv.1,
          ((pySplitOnStr kv.2 (" | ")).zip flags).filterMap
            (fun pf => if pf.2 then some pf.1 else none))) = some e := h
      injection h3 with h4
      subst h4
      refine ⟨rfl, zip_filterMap_sublist _ _, ?_⟩
      intro p hp
      rcases List.mem_filterMap.mp hp with ⟨pf, hpf, hpe⟩
      have hbt : pf.2 = true ∧ pf.1 = p := by
        cases hb : pf.2
        · rw [hb] at hpe; simp at hpe
        · rw [hb] at hpe; simp at hpe; exact ⟨rfl, hpe⟩
      rcases hbt with ⟨hb, hp1⟩
      have hzip := forall2_zip (optMapM_forall2 _ _ _ hm) pf hpf
      rw [hp1, hb] at hzip
      exact hzip

/-- `pruneEntry` preserves the key sequence. -/
theorem forall2_prune_keys (allNT : List String) :
    ∀ {rules : List (String × String)} {processed : List (String × List String)},
      List.Forall₂ (fun a b => pruneEntry allNT a = some b) rules processed →
      processed.map Prod.fst = rules.map Prod.fst := by
  intro rules processed h
  induction h with
  | nil => rfl
  | cons hR hrest ih =>
      rw [List.map_cons, List.map_cons, ih, (pruneEntry_spec _ _ _ hR).1]

/-- Dropping the emptied entries keeps the keys a sublist. -/
theorem prune_filterMap_keys_sublist :
    ∀ (processed : List (String × List String)),
      ((processed.filterMap (fun e =>
          if e.2.isEmpty then none
          else some (e.1, pyJoin (" | ") e.2))).map Prod.fst).Sublist
        (processed.map Prod.fst) := by
  intro processed
  induction processed with
  | nil => simp
  | cons e es ih =>
      rw [List.filterMap_cons]
      cases hemp : e.2.isEmpty
      · simpa [hemp] using ih.cons₂ e.1
      · simpa [hemp] using ih.cons e.1

/-- Structure of a successful `prune_useless_rules` run: the surviving keys
form a sublist of the input keys, and every surviving entry is the
`" | "`-join of a nonempty sub-selection of the corresponding input value's
alternatives, each accepted against the *pre-pruned* left-hand sides. -/
theorem prune_shape (rules out : List (String × String))
    (h : prune_useless_rules rules = some out) :
    (out.map Prod.fst).Sublist (rules.map Prod.fst) ∧
    ∀ kv ∈ out, ∃ v useful, (kv.1, v) ∈ rules ∧ useful ≠ [] ∧
      useful.Sublist (pySplitOnStr v (" | ")) ∧
      (∀ p ∈ useful, acceptPart (rules.map Prod.fst) p = some true) ∧
      kv.2 = pyJoin (" | ") useful := by
  unfold prune_useless_rules at h
  cases hm : optMapM (pruneEntry (rules.map Prod.fst)) rules with
  | none => rw [hm] at h; cases h
  | some processed =>
      rw [hm] at h
      have h3 : some (processed.filterMap (fun e =>
          if e.2.isEmpty then none
          else some (e.1, pyJoin (" | ") e.2))) = some out := h
      injection h3 with h4
      have hf2 := optMapM_forall2 _ _ _ hm
      constructor
      · rw [← h4]
        have hk := forall2_prune_keys (rules.map Prod.fst) hf2
        rw [← hk]
        exact prune_filterMap_keys_sublist processed
      · intro kv hkv
        rw [← h4] at hkv
        rcases List.mem_filterMap.mp hkv with ⟨e, he, hfe⟩
        have hkve : kv = (e.1, pyJoin (" | ") e.2) ∧ e.2 ≠ [] := by
          cases hemp : e.2.isEmpty
          · rw [hemp] at hfe
            simp at hfe
            exact ⟨hfe.symm, by
              intro hnil
              rw [hnil] at hemp
              cases hemp⟩
          · rw [hemp] at hfe
            simp at hfe
        rcases hkve with ⟨hkve1, hne⟩
        rcases forall2_mem_right hf2 e he with ⟨aEntry, haRules, hpe⟩
        rcases pruneEntry_spec _ _ _ hpe with ⟨hkey, hsub, hacc⟩
        refine ⟨aEntry.2, e.2, ?_, hne, hsub, hacc, ?_⟩
        · rw [hkve1]
          show (e.1, aEntry.2) ∈ rules
          rw [hkey]
          exact haRules
        · rw [hkve1]

/-- C7 (amended): a second pruning pass returns a sub-dictionary of the first
pass's output (keys a sublist; every surviving value the `" | "`-join of a
nonempty sub-selection of the once-pruned value's alternatives), but not
necessarily the same rule set. -/
theorem prune_twice_shrinks (rules r1 r2 : List (String × String))
    (h1 : prune_useless_rules rules = some r1)
    (h2 : prune_useless_rules r1 = some r2) :
    (r2.map Prod.fst).Sublist (r1.map Prod.fst) ∧
    ∀ kv ∈ r2, ∃ v useful, (kv.1, v) ∈ r1 ∧ useful ≠ [] ∧
      useful.Sublist (pySplitOnStr v (" | ")) ∧
      (∀ p ∈ useful, acceptPart (r1.map Prod.fst) p = some true) ∧
      kv.2 = pyJoin (" | ") useful :=
  prune_shape r1 r2 h2

/-- Witness for C7 (amended): `rulesSelf` prunes to itself, and the double
prune is a sub-dictionary of the single prune. -/
theorem prune_twice_shrinks_witness :
    prune_useless_rules rulesSelf = some rulesSelf ∧
    ((rulesSelf.map Prod.fst).Sublist (rulesSelf.map Prod.fst) ∧
      ∀ kv ∈ rulesSelf, ∃ v useful, (kv.1, v) ∈ rulesSelf ∧ useful ≠ [] ∧
        useful.Sublist (pySplitOnStr v (" | ")) ∧
        (∀ p ∈ useful, acceptPart (rulesSelf.map Prod.fst) p = some true) ∧
        kv.2 = pyJoin (" | ") useful) :=
  ⟨rfl, prune_twice_shrinks rulesSelf rulesSelf rulesSelf rfl rfl⟩

/-- C5 (amended): `finish_grammar` runs its phases in the order collecting ->
pruning -> closing: it prunes the pairing-derived rules first and only then
appends the two schematic entries, which are never pruned; every alternative
surviving in a pruned entry was accepted against the *pre-pruned* left-hand
sides. -/
theorem finish_grammar_prunes_before_closing (pda : PDA)
    (rules R : List (String × String))
    (h : finish_grammar pda rules = some R) :
    ∃ pruned n,
      prune_useless_rules rules = some pruned ∧
      find_largest_transition_number pda = some n ∧
      R = add_final_transition_rule (add_epsilon_rules pruned n) n ∧
      (pruned.map Prod.fst).Sublist (rules.map Prod.fst) ∧
      ∀ kv ∈ pruned, ∃ v useful, (kv.1, v) ∈ rules ∧ useful ≠ [] ∧
        useful.Sublist (pySplitOnStr v (" | ")) ∧
        (∀ p ∈ useful, acceptPart (rules.map Prod.fst) p = some true) ∧
        kv.2 = pyJoin (" | ") useful := by
  unfold finish_grammar at h
  cases hp : prune_useless_rules rules with
  | none => rw [hp] at h; cases h
  | some pruned =>
      rw [hp] at h
      cases hn : find_largest_transition_number pda with
      | none => rw [hn] at h; cases h
      | some n =>
          rw [hn] at h
          have h3 : some (add_final_transition_rule (add_epsilon_rules pruned n) n) =
              some R := h
          injection h3 with h4
          rcases prune_shape rules pruned hp with ⟨hsub, hprops⟩
          exact ⟨pruned, n, rfl, rfl, h4.symm, hsub, hprops⟩

/-- Witness for C5 (amended) on `pdaChain` and its generated rules. -/
theorem finish_grammar_prunes_before_closing_witness :
    finish_grammar pdaChain rulesChain = some finishedChain ∧
    (∃ pruned n,
      prune_useless_rules rulesChain = some pruned ∧
      find_largest_transition_number pdaChain = some n ∧
      finishedChain = add_final_transition_rule (add_epsilon_rules pruned n) n ∧
      (pruned.map Prod.fst).Sublist (rulesChain.map Prod.fst) ∧
      ∀ kv ∈ pruned, ∃ v useful, (kv.1, v) ∈ rulesChain ∧ useful ≠ [] ∧
        useful.Sublist (pySplitOnStr v (" | ")) ∧
        (∀ p ∈ useful, acceptPart (rulesChain.map Prod.fst) p = some true) ∧
        kv.2 = pyJoin (" | ") useful) :=
  ⟨rfl, finish_grammar_prunes_before_closing pdaChain rulesChain finishedChain rfl⟩

/-- Counterexample for C5 as stated: `pdaChain` passes both validators, yet
its finished grammar contains the alternative `a A_12 b` under `A_01` while
`A_12` is neither a left-hand side of the finished rules nor an identity
instance — because pruning ran *before* `A_12` was dropped from the rule
set, not after closing. -/
theorem finish_grammar_invariant_counterexample :
    validate_pda pdaChain = true ∧
    validate_pda_conversion pdaChain = none ∧
    grammar_pipeline pdaChain = some finishedChain ∧
    ¬ specRhsInvariant finishedChain := by
  refine ⟨rfl, rfl, rfl, ?_⟩
  intro hinv
  have h := hinv ((("A_01"), ("a A_12 b"))) (by decide) (("A_12")) (by decide)
  rcases h with h | h
  · exact absurd h (by decide)
  · exact not_identityNT_A12 h

/-- One insert-if-absent-then-update step on a counts table, as both
`bump_push` and `bump_pop` perform it, changes exactly the updated symbol's
count. -/
theorem tableCount_insert_update (tb : List (String × Nat × Nat)) (s s2 : String)
    (g : Nat × Nat → Nat × Nat) :
    tableCount
      ((if tb.any (fun e => e.1 == s) then tb else tb ++ [(s, (0, 0))]).map
        (fun e => if e.1 == s then (e.1, g e.2) else e)) s2 =
      if s2 = s then g (tableCount tb s2) else tableCount tb s2 := by
  have hpred : ∀ e : String × Nat × Nat,
      ((fun e : String × Nat × Nat => e.1 == s2)
        ((fun e : String × Nat × Nat => if e.1 == s then (e.1, g e.2) else e) e)) =
      (e.1 == s2) := by
    intro e
    by_cases hk : e.1 == s <;> simp [hk]
  unfold tableCount
  by_cases hany : tb.any (fun e => e.1 == s)
  · rw [if_pos hany, find?_map_of_pred _ _ hpred]
    cases hf : List.find? (fun e => e.1 == s2) tb with
    | none =>
        by_cases hss : s2 = s
        · exfalso
          rcases List.any_eq_true.mp hany with ⟨e, he, hpe⟩
          rw [List.find?_eq_none] at hf
          exact hf e he (by rw [hss]; exact hpe)
        · simp [hss]
    | some e =>
        have he1 : e.1 = s2 := by
          have h2 := List.find?_some hf
          simpa using h2
        by_cases hss : s2 = s
        · have hes : e.1 = s := by rw [he1, hss]
          simp [hss, hes]
        · have hes : ¬ (e.1 = s) := by rw [he1]; exact hss
          simp [hss, hes]
  · rw [if_neg hany, find?_map_of_pred _ _ hpred]
    have hfs : List.find? (fun e => e.1 == s) tb = none := by
      rw [List.find?_eq_none]
      intro x hx hpx
      exact hany (List.any_eq_true.mpr ⟨x, hx, hpx⟩)
    by_cases hss : s2 = s
    · subst hss
      rw [find?_append_of_none _ _ _ hfs]
      have hone : List.find? (fun e => e.1 == s2) [(s2, ((0 : Nat), (0 : Nat)))] =
          some (s2, (0, 0)) := by
        simp [List.find?]
      rw [hone, hfs]
      simp
    · cases hf : List.find? (fun e => e.1 == s2) tb with
      | none =>
          rw [find?_append_of_none _ _ _ hf]
          have hs2 : (s == s2) = false := by
            simp
            exact fun h => hss h.symm
          have hone : List.find? (fun e => e.1 == s2) [(s, ((0 : Nat), (0 : Nat)))] =
              none := by
            simp [List.find?, hs2]
          rw [hone]
          simp [hss]
      | some e =>
          rw [find?_append_of_some _ _ _ _ hf]
          have he1 : e.1 = s2 := by
            have h2 := List.find?_some hf
            simpa using h2
          have hes : ¬ (e.1 = s) := by rw [he1]; exact hss
          simp [hss, hes]

/-- `bump_push` adds one to the pushed count of its symbol and nothing else. -/
theorem tableCount_bump_push (tb : List (String × Nat × Nat)) (s s2 : String) :
    tableCount (bump_push tb s) s2 =
      if s2 = s then ((tableCount tb s2).1 + 1, (tableCount tb s2).2)
      else tableCount tb s2 := by
  have h := tableCount_insert_update tb s s2 (fun c => (c.1 + 1, c.2))
  simpa [bump_push] using h

/-- `bump_pop` adds one to the popped count of its symbol and nothing else. -/
theorem tableCount_bump_pop (tb : List (String × Nat × Nat)) (s s2 : String) :
    tableCount (bump_pop tb s) s2 =
      if s2 = s then ((tableCount tb s2).1, (tableCount tb s2).2 + 1)
      else tableCount tb s2 := by
  have h := tableCount_insert_update tb s s2 (fun c => (c.1, c.2 + 1))
  simpa [bump_pop] using h


/-- Counts recorded by the `stack_operations` loop over a transition list:
for every non-epsilon symbol, the final table entry holds the starting counts
plus the number of pushes and pops in the list. -/
theorem stack_operations_fold (sym : String) (hsym : sym ≠ epsilonTok) :
    ∀ (ts : List Transition) (tb : List (String × Nat × Nat)),
      tableCount
        (ts.foldl
          (fun tb t =>
            let tb := if t.pushed_symbol ≠ epsilonTok then bump_push tb t.pushed_symbol else tb
            if t.popped_symbol ≠ epsilonTok then bump_pop tb t.popped_symbol else tb)
          tb) sym =
      ((tableCount tb sym).1 + countPushL ts sym,
       (tableCount tb sym).2 + countPopL ts sym) := by
  intro ts
  induction ts with
  | nil => intro tb; simp [countPushL, countPopL]
  | cons t ts ih =>
      intro tb
      rw [List.foldl_cons, ih]
      have hstage1 : tableCount
          (if t.pushed_symbol ≠ epsilonTok then bump_push tb t.pushed_symbol else tb) sym =
          ((tableCount tb sym).1 + (if t.pushed_symbol == sym then 1 else 0),
           (tableCount tb sym).2) := by
        by_cases hpu : t.pushed_symbol = sym
        · rw [if_pos (by rw [hpu]; exact hsym), tableCount_bump_push, if_pos hpu.symm]
          simp [hpu]
        · have hne : (t.pushed_symbol == sym) = false := by
            simp
            exact hpu
          have hpu2 : ¬ (sym = t.pushed_symbol) := fun h => hpu h.symm
          by_cases heps : t.pushed_symbol ≠ epsilonTok
          · rw [if_pos heps, tableCount_bump_push]
            simp [hne, hpu, hpu2]
          · rw [if_neg heps]
            simp [hne]
      have hstage2 : tableCount
          (if t.popped_symbol ≠ epsilonTok then
            bump_pop (if t.pushed_symbol ≠ epsilonTok then bump_push tb t.pushed_symbol else tb)
              t.popped_symbol
          else (if t.pushed_symbol ≠ epsilonTok then bump_push tb t.pushed_symbol else tb)) sym =
          ((tableCount tb sym).1 + (if t.pushed_symbol == sym then 1 else 0),
           (tableCount tb sym).2 + (if t.popped_symbol == sym then 1 else 0)) := by
        by_cases hpo : t.popped_symbol = sym
        · rw [if_pos (by rw [hpo]; exact hsym), tableCount_bump_pop, if_pos hpo.symm,
            hstage1]
          simp [hpo]
        · have hne2 : (t.popped_symbol == sym) = false := by
            simp
            exact hpo
          have hpo2 : ¬ (sym = t.popped_symbol) := fun h => hpo h.symm
          by_cases heps : t.popped_symbol ≠ epsilonTok
          · rw [if_pos heps, tableCount_bump_pop, hstage1]
            simp [hne2, hpo, hpo2]
          · rw [if_neg heps, hstage1]
            simp [hne2]
      have hc1 : countPushL (t :: ts) sym =
          (if t.pushed_symbol == sym then 1 else 0) + countPushL ts sym := by
        by_cases h : t.pushed_symbol == sym <;> simp [countPushL, List.filter_cons, h] <;>
          omega
      have hc2 : countPopL (t :: ts) sym =
          (if t.popped_symbol == sym then 1 else 0) + countPopL ts sym := by
        by_cases h : t.popped_symbol == sym <;> simp [countPopL, List.filter_cons, h] <;>
          omega
      rw [hc1, hc2]
      show ((tableCount
          (if t.popped_symbol ≠ epsilonTok then
            bump_pop (if t.pushed_symbol ≠ epsilonTok then bump_push tb t.pushed_symbol else tb)
              t.popped_symbol
          else (if t.pushed_symbol ≠ epsilonTok then bump_push tb t.pushed_symbol else tb)) sym).1
            + countPushL ts sym,
          (tableCount
          (if t.popped_symbol ≠ epsilonTok then
            bump_pop (if t.pushed_symbol ≠ epsilonTok then bump_push tb t.pushed_symbol else tb)
              t.popped_symbol
          else (if t.pushed_symbol ≠ epsilonTok then bump_push tb t.pushed_symbol else tb)) sym).2
            + countPopL ts sym) = _
      rw [hstage2]
      simp only [Prod.mk.injEq]
      constructor <;> omega

/-- Keys appearing after an insert-if-absent-then-update step were either
present before or are the inserted symbol. -/
theorem insert_update_keys (P : String → Prop) (tb : List (String × Nat × Nat))
    (s : String) (g : Nat × Nat → Nat × Nat)
    (htb : ∀ e ∈ tb, P e.1) (hs : P s) :
    ∀ e ∈ (if tb.any (fun e => e.1 == s) then tb else tb ++ [(s, (0, 0))]).map
        (fun e => if e.1 == s then (e.1, g e.2) else e), P e.1 := by
  intro e he
  rcases List.mem_map.mp he with ⟨e0, he0, heq⟩
  have hP0 : P e0.1 := by
    by_cases hany : tb.any (fun x => x.1 == s)
    · rw [if_pos hany] at he0
      exact htb e0 he0
    · rw [if_neg hany] at he0
      rcases List.mem_append.mp he0 with h | h
      · exact htb e0 h
      · have he0s : e0 = (s, (0, 0)) := by simpa using h
        rw [he0s]
        exact hs
  rw [← heq]
  by_cases hk : e0.1 == s
  · have he1 : e0.1 = s := by simpa using hk
    simpa [he1] using (he1 ▸ hP0)
  · have he1 : ¬ (e0.1 = s) := by simpa using hk
    simpa [he1] using hP0

/-- Every key in the `stack_operations` table is a non-epsilon symbol. -/
theorem stack_operations_keys (pda : PDA) :
    ∀ e ∈ stack_operations pda, e.1 ≠ epsilonTok := by
  unfold stack_operations
  generalize allTransitionRecords pda = ts
  have hgen : ∀ (ts : List Transition) (tb : List (String × Nat × Nat)),
      (∀ e ∈ tb, e.1 ≠ epsilonTok) →
      ∀ e ∈ ts.foldl
        (fun tb t =>
          let tb := if t.pushed_symbol ≠ epsilonTok then bump_push tb t.pushed_symbol else tb
          if t.popped_symbol ≠ epsilonTok then bump_pop tb t.popped_symbol else tb)
        tb, e.1 ≠ epsilonTok := by
    intro ts
    induction ts with
    | nil => intro tb htb; exact htb
    | cons t ts ih =>
        intro tb htb
        rw [List.foldl_cons]
        apply ih
        have h1 : ∀ e ∈ (if t.pushed_symbol ≠ epsilonTok then
            bump_push tb t.pushed_symbol else tb), e.1 ≠ epsilonTok := by
          by_cases hp : t.pushed_symbol ≠ epsilonTok
          · rw [if_pos hp]
            simp only [bump_push]
            exact insert_update_keys (fun x => x ≠ epsilonTok) tb t.pushed_symbol
              (fun c => (c.1 + 1, c.2)) htb hp
          · rw [if_neg hp]
            exact htb
        by_cases hq : t.popped_symbol ≠ epsilonTok
        · intro e he
          rw [if_pos hq] at he
          simp only [bump_pop] at he
          exact insert_update_keys (fun x => x ≠ epsilonTok) _ t.popped_symbol
            (fun c => (c.1, c.2 + 1)) h1 hq e he
        · intro e he
          rw [if_neg hq] at he
          exact h1 e he
  exact hgen ts [] (by intro e he; cases he)

/-- The key list after an insert-if-absent-then-update step. -/
theorem insert_update_keys_map (tb : List (String × Nat × Nat)) (s : String)
    (g : Nat × Nat → Nat × Nat) :
    ((if tb.any (fun e => e.1 == s) then tb else tb ++ [(s, (0, 0))]).map
        (fun e => if e.1 == s then (e.1, g e.2) else e)).map Prod.fst =
      (if tb.any (fun e => e.1 == s) then tb else tb ++ [(s, (0, 0))]).map Prod.fst := by
  rw [List.map_map]
  apply List.map_congr_left
  intro e _
  by_cases hk : e.1 == s
  · have he1 : e.1 = s := by simpa using hk
    simp [he1]
  · have he1 : ¬ (e.1 = s) := by simpa using hk
    simp [he1]

/-- Insert-if-absent-then-update preserves duplicate-freedom of the keys. -/
theorem insert_update_keys_nodup (tb : List (String × Nat × Nat)) (s : String)
    (g : Nat × Nat → Nat × Nat) (h : (tb.map Prod.fst).Nodup) :
    (((if tb.any (fun e => e.1 == s) then tb else tb ++ [(s, (0, 0))]).map
        (fun e => if e.1 == s then (e.1, g e.2) else e)).map Prod.fst).Nodup := by
  rw [insert_update_keys_map]
  by_cases hany : tb.any (fun e => e.1 == s)
  · rw [if_pos hany]
    exact h
  · rw [if_neg hany]
    have hnotin : s ∉ tb.map Prod.fst := by
      intro hmem
      rcases List.mem_map.mp hmem with ⟨e, he, hfst⟩
      exact hany (List.any_eq_true.mpr ⟨e, he, by simp [hfst]⟩)
    rw [List.map_append]
    refine List.nodup_append.mpr ⟨h, by simp, ?_⟩
    intro a ha hb
    have hab : a = s := by simpa using hb
    rw [hab] at ha
    exact hnotin ha

/-- The keys of the `stack_operations` table are duplicate-free. -/
theorem stack_operations_nodup (pda : PDA) :
    ((stack_operations pda).map Prod.fst).Nodup := by
  unfold stack_operations
  generalize allTransitionRecords pda = ts
  have hgen : ∀ (ts : List Transition) (tb : List (String × Nat × Nat)),
      (tb.map Prod.fst).Nodup →
      ((ts.foldl
        (fun tb t =>
          let tb := if t.pushed_symbol ≠ epsilonTok then bump_push tb t.pushed_symbol else tb
          if t.popped_symbol ≠ epsilonTok then bump_pop tb t.popped_symbol else tb)
        tb).map Prod.fst).Nodup := by
    intro ts
    induction ts with
    | nil => intro tb htb; exact htb
    | cons t ts ih =>
        intro tb htb
        rw [List.foldl_cons]
        apply ih
        have h1 : (((if t.pushed_symbol ≠ epsilonTok then
            bump_push tb t.pushed_symbol else tb)).map Prod.fst).Nodup := by
          by_cases hp : t.pushed_symbol ≠ epsilonTok
          · rw [if_pos hp]
            simp only [bump_push]
            exact insert_update_keys_nodup tb t.pushed_symbol (fun c => (c.1 + 1, c.2)) htb
          · rw [if_neg hp]
            exact htb
        by_cases hq : t.popped_symbol ≠ epsilonTok
        · rw [if_pos hq]
          simp only [bump_pop]
          exact insert_update_keys_nodup _ t.popped_symbol (fun c => (c.1, c.2 + 1)) h1
        · rw [if_neg hq]
          exact h1
  exact hgen ts [] (by simp)

/-- With duplicate-free keys, `find?` by an entry's own key returns it. -/
theorem find?_self_of_nodup :
    ∀ (tb : List (String × Nat × Nat)) (e : String × Nat × Nat),
      (tb.map Prod.fst).Nodup → e ∈ tb →
      List.find? (fun x => x.1 == e.1) tb = some e := by
  intro tb
  induction tb with
  | nil => intro e _ he; cases he
  | cons x xs ih =>
      intro e hnd he
      rw [List.map_cons] at hnd
      have hnd2 := List.nodup_cons.mp hnd
      rcases List.mem_cons.mp he with rfl | he2
      · exact List.find?_cons_of_pos _ (by simp)
      · have hxe : (x.1 == e.1) = false := by
          simp
          intro hx
          exact hnd2.1 (by rw [hx]; exact List.mem_map.mpr ⟨e, he2, rfl⟩)
        rw [List.find?_cons_of_neg _ (by simp [hxe]), ih e hnd2.2 he2]

/-- The `stack_operations` table records exactly the push and pop counts of
every non-epsilon symbol. -/
theorem stack_operations_counts (pda : PDA) (sym : String) (hsym : sym ≠ epsilonTok) :
    tableCount (stack_operations pda) sym = (pushCount pda sym, popCount pda sym) := by
  unfold stack_operations
  have h := stack_operations_fold sym hsym (allTransitionRecords pda) []
  have hz : tableCount ([] : List (String × Nat × Nat)) sym = (0, 0) := rfl
  rw [hz] at h
  simpa [pushCount, popCount, countPushL, countPopL] using h

/-- C6 (amended): the stack-balance step fails if and only if some stack
symbol is pushed *strictly more* often than it is popped (an equality test is
not performed: a symbol popped more often than pushed passes), and on failure
the raised message names an offending symbol. -/
theorem validate_stack_operations_characterization (pda : PDA)
    (hv : validate_pda pda = true) :
    ((validate_stack_operations pda = none) ↔
      (∀ sym, sym ≠ epsilonTok → pushCount pda sym ≤ popCount pda sym)) ∧
    (∀ m, validate_stack_operations pda = some m →
      ∃ sym, m = stackErrMsg sym ∧ popCount pda sym < pushCount pda sym) := by
  constructor
  · constructor
    · intro hnone sym hsym
      unfold validate_stack_operations at hnone
      cases hfp : List.find? (fun e => e.2.2 < e.2.1) (stack_operations pda) with
      | some e => rw [hfp] at hnone; cases hnone
      | none =>
          have hforall := List.find?_eq_none.mp hfp
          have hcnt := stack_operations_counts pda sym hsym
          cases hfs : List.find? (fun e => e.1 == sym) (stack_operations pda) with
          | none =>
              have htc : tableCount (stack_operations pda) sym = (0, 0) := by
                unfold tableCount
                rw [hfs]
                rfl
              rw [hcnt] at htc
              have h1 := congrArg Prod.fst htc
              have h2 := congrArg Prod.snd htc
              simp at h1 h2
              omega
          | some e =>
              have he := List.mem_of_find?_eq_some hfs
              have hnp : ¬ (e.2.2 < e.2.1) := by
                have h2 := hforall e he
                simpa using h2
              have htc : tableCount (stack_operations pda) sym = e.2 := by
                unfold tableCount
                rw [hfs]
                rfl
              rw [hcnt] at htc
              have h1 := congrArg Prod.fst htc
              have h2 := congrArg Prod.snd htc
              simp at h1 h2
              omega
    · intro hall
      unfold validate_stack_operations
      cases hf : List.find? (fun e => e.2.2 < e.2.1) (stack_operations pda) with
      | none => rfl
      | some e =>
          exfalso
          have he := List.mem_of_find?_eq_some hf
          have hpred : e.2.2 < e.2.1 := by
            have h2 := List.find?_some hf
            simpa using h2
          have hsym := stack_operations_keys pda e he
          have hfs : List.find? (fun x => x.1 == e.1) (stack_operations pda) = some e :=
            find?_self_of_nodup _ e (stack_operations_nodup pda) he
          have hcnt := stack_operations_counts pda e.1 hsym
          have htc : tableCount (stack_operations pda) e.1 = e.2 := by
            unfold tableCount
            rw [hfs]
            rfl
          rw [hcnt] at htc
          have hle := hall e.1 hsym
          have h1 := congrArg Prod.fst htc
          have h2 := congrArg Prod.snd htc
          simp at h1 h2
          omega
  · intro m hm
    unfold validate_stack_operations at hm
    cases hf : List.find? (fun e => e.2.2 < e.2.1) (stack_operations pda) with
    | none => rw [hf] at hm; cases hm
    | some e =>
        rw [hf] at hm
        have hm2 : stackErrMsg e.1 = m := by
          have h3 : some (stackErrMsg e.1) = some m := hm
          injection h3
        have he := List.mem_of_find?_eq_some hf
        have hpred : e.2.2 < e.2.1 := by
          have h2 := List.find?_some hf
          simpa using h2
        have hsym := stack_operations_keys pda e he
        have hfs : List.find? (fun x => x.1 == e.1) (stack_operations pda) = some e :=
          find?_self_of_nodup _ e (stack_operations_nodup pda) he
        have hcnt := stack_operations_counts pda e.1 hsym
        have htc : tableCount (stack_operations pda) e.1 = e.2 := by
          unfold tableCount
          rw [hfs]
          rfl
        rw [hcnt] at htc
        have h1 := congrArg Prod.fst htc
        have h2 := congrArg Prod.snd htc
        simp at h1 h2
        refine ⟨e.1, hm2.symm, ?_⟩
        omega

/-- Witness for C6 (amended) at the structurally valid example PDA. -/
theorem validate_stack_operations_characterization_witness :
    validate_pda pdaAB = true ∧
    (((validate_stack_operations pdaAB = none) ↔
      (∀ sym, sym ≠ epsilonTok → pushCount pdaAB sym ≤ popCount pdaAB sym)) ∧
     (∀ m, validate_stack_operations pdaAB = some m →
      ∃ sym, m = stackErrMsg sym ∧ popCount pdaAB sym < pushCount pdaAB sym)) :=
  ⟨rfl, validate_stack_operations_characterization pdaAB rfl⟩

/-- Counterexample for C6 as stated: in the structurally valid `pdaPopOnly`
the symbol `Z` is popped once and pushed never — the push and pop counts
differ — yet the stack-balance step (and the whole conversion validator)
passes, because only `pushed > popped` is tested. -/
theorem validate_stack_operations_counterexample :
    validate_pda pdaPopOnly = true ∧
    pushCount pdaPopOnly ("Z") = 0 ∧
    popCount pdaPopOnly ("Z") = 1 ∧
    validate_stack_operations pdaPopOnly = none ∧
    validate_pda_conversion pdaPopOnly = none :=
  ⟨rfl, rfl, rfl, rfl, rfl⟩

/-- C8 (amended): the start variable of the produced CFG is the *first key of
the finished rule dict* (`next(iter(rules.keys()))`), not a value computed
from the initial and final states. -/
theorem process_grammar_start_variable (rules : List (String × String)) (pda : PDA)
    (cfg : CFG) (h : process_grammar_and_create_cfg rules pda = some cfg) :
    ∃ kv rest, rules = kv :: rest ∧ cfg.start_variable = kv.1 := by
  unfold process_grammar_and_create_cfg at h
  cases hm : optMapM (fun v => (variable_order v).map (fun k => (k, v)))
      (collectVariables rules) with
  | none => rw [hm] at h; cases h
  | some keyed =>
      rw [hm] at h
      cases rules with
      | nil => cases h
      | cons kv rest =>
          refine ⟨kv, rest, rfl, ?_⟩
          have h3 : some ({ variablesList := (sortByKeys keyed).map Prod.snd
                            alphabet := pda.input_symbols
                            rules := kv :: rest
                            start_variable := kv.1 } : CFG) = some cfg := h
          injection h3 with h4
          rw [← h4]

/-- Witness for C8 (amended): on the finished example grammar the start
variable is its first left-hand side `A_02`. -/
theorem process_grammar_start_variable_witness :
    ∃ kv rest, finishedAB = kv :: rest ∧
      (CFG.mk [("A_02"), ("A_11"), ("A_ii"), ("A_ij"), ("A_ik"), ("A_jk")]
        [("a"), ("b")] finishedAB ("A_02")).start_variable = kv.1 :=
  process_grammar_start_variable finishedAB pdaAB
    (CFG.mk [("A_02"), ("A_11"), ("A_ii"), ("A_ij"), ("A_ik"), ("A_jk")]
      [("a"), ("b")] finishedAB ("A_02")) rfl

/-- Counterexample for C8 as stated: `pdaABfinalQ1` passes both validators,
its initial-to-final span is `A_01`, but the produced CFG's start variable is
`A_02` (the first discovered rule key). -/
theorem start_variable_counterexample :
    validate_pda pdaABfinalQ1 = true ∧
    validate_pda_conversion pdaABfinalQ1 = none ∧
    specStartVariable pdaABfinalQ1 = some ("A_01") ∧
    (run_conversion pdaABfinalQ1).map (fun c => c.start_variable) = some ("A_02") ∧
    (("A_02") : String) ≠ ("A_01") :=
  ⟨rfl, rfl, rfl, rfl, by decide⟩

/-- C9: a structurally valid PDA with more than one final state is rejected
by the first step of the conversion validator with the multiple-final-states
message and no CFG is produced; with exactly one final state this step
passes and validation proceeds to the stack checks. -/
theorem validate_pda_conversion_single_final (pda : PDA)
    (hv : validate_pda pda = true) (hnd : pda.final_states.Nodup) :
    (1 < pda.final_states.length →
      validate_pda_conversion pda = some multipleFinalStatesMsg ∧
      run_conversion pda = none) ∧
    (pda.final_states.length = 1 →
      validate_pda_conversion pda = conversion_steps_2_3 pda) := by
  constructor
  · intro hlen
    have hval : validate_pda_conversion pda = some multipleFinalStatesMsg := by
      unfold validate_pda_conversion
      rw [if_pos hlen]
    refine ⟨hval, ?_⟩
    unfold run_conversion
    simp [hv, hval]
  · intro hlen
    unfold validate_pda_conversion
    rw [if_neg (by omega)]

/-- Witness for C9 at a structurally valid PDA with two final states. -/
theorem validate_pda_conversion_single_final_witness :
    validate_pda pdaTwoFinal = true ∧
    pdaTwoFinal.final_states.Nodup ∧
    (validate_pda_conversion pdaTwoFinal = some multipleFinalStatesMsg ∧
      run_conversion pdaTwoFinal = none) :=
  ⟨rfl, by decide,
    (validate_pda_conversion_single_final pdaTwoFinal rfl (by decide)).1 (by decide)⟩

/-- A loop aborts when it reaches an element on which its body always raises. -/
theorem optFoldlM_none {α β : Type} (f : β → α → Option β) (x : α)
    (hfail : ∀ b, f b x = none) :
    ∀ (l : List α), x ∈ l → ∀ b, optFoldlM f b l = none := by
  intro l
  induction l with
  | nil => intro hx; cases hx
  | cons a as ih =>
      intro hx b
      rcases List.mem_cons.mp hx with rfl | hx2
      · simp [optFoldlM, hfail b]
      · cases hf : f b a with
        | none => simp [optFoldlM, hf]
        | some b2 =>
            simp [optFoldlM, hf]
            exact ih hx2 b2

/-- C10: for a PDA that passes both validators but whose transitions mention
a state name whose tail does not parse as a decimal integer, the rule
generation / grammar finishing stages raise instead of producing a grammar
(`find_largest_transition_number` parses `int(state[1:])` of every source
and target state of every transition). -/
theorem pipeline_requires_numeric_state_names (pda : PDA)
    (hv : validate_pda pda = true)
    (hconv : validate_pda_conversion pda = none)
    (hbad : ∃ st ∈ pda.transitions, ∃ t ∈ st.2,
      pyInt? (strDrop1 st.1) = none ∨ pyInt? (strDrop1 t.next_state) = none) :
    grammar_pipeline pda = none := by
  rcases hbad with ⟨st, hst, t, ht, hbad2⟩
  have hginner : ∀ m : Int,
      (pyInt? (strDrop1 st.1)).bind (fun s =>
        (pyInt? (strDrop1 t.next_state)).map (fun n => max (max m s) n)) = none := by
    intro m
    rcases hbad2 with hb | hb
    · rw [hb]
      rfl
    · cases hs : pyInt? (strDrop1 st.1) with
      | none => rfl
      | some s => simp [hb]
  have houter : ∀ m : Int,
      optFoldlM
        (fun m t2 =>
          (pyInt? (strDrop1 st.1)).bind (fun s =>
            (pyInt? (strDrop1 t2.next_state)).map (fun n => max (max m s) n)))
        m st.2 = none := by
    intro m
    exact optFoldlM_none _ t (fun b => hginner b) st.2 ht m
  have hlarge : find_largest_transition_number pda = none := by
    unfold find_largest_transition_number
    exact optFoldlM_none _ st (fun b => houter b) pda.transitions hst 0
  unfold grammar_pipeline
  cases hgen : generate_rules pda (find_push_to_pop pda) with
  | none => rfl
  | some rules =>
      show finish_grammar pda rules = none
      unfold finish_grammar
      cases hp : prune_useless_rules rules with
      | none => rfl
      | some pruned =>
          rw [hlarge]
          rfl

/-- Witness for C10: the PDA using the state name `start` passes both
validators and produces no grammar. -/
theorem pipeline_requires_numeric_state_names_witness :
    grammar_pipeline pdaNamedStart = none :=
  pipeline_requires_numeric_state_names pdaNamedStart rfl rfl
    ⟨(("start"), [⟨("a"), ("epsilon"), ("q1"), ("Z")⟩]), by decide,
      ⟨("a"), ("epsilon"), ("q1"), ("Z")⟩, by decide, Or.inl (by decide)⟩
